import Mathlib

/-!
Shallow embedding of the TCP contract data-standardization layer
(`src/data_standardization.py`, class `TCPDataStandardizer`), together with
theorems about its normalizers and record builder.

Modelling conventions:
* Python values reaching the normalizers (string, int, float, None) are the
  inductive `Value`; floats are modelled as rationals, so IEEE rounding noise
  and NaN are outside the model.
* Python strings are `List Char`; only ASCII casing, ASCII whitespace and
  ASCII digits are modelled, matching the data the program processes.
* Python dicts are association lists with first-match lookup.
-/

set_option maxHeartbeats 1600000

/-- ASCII whitespace, the characters matched by Python's regex `\s` on the
program's data: space, tab, newline, vertical tab, form feed, carriage return. -/
def isPySpace (c : Char) : Bool :=
  decide (c.toNat = 32 ∨ c.toNat = 9 ∨ c.toNat = 10 ∨ c.toNat = 11 ∨
          c.toNat = 12 ∨ c.toNat = 13)

/-- ASCII digit test (regex `\d` on the program's data). -/
def isDig (c : Char) : Bool :=
  decide (48 ≤ c.toNat ∧ c.toNat ≤ 57)

/-- Numeric value of an ASCII digit character. -/
def digitVal (c : Char) : Nat := c.toNat - 48

/-- ASCII letter test. -/
def isAl (c : Char) : Bool :=
  decide ((65 ≤ c.toNat ∧ c.toNat ≤ 90) ∨ (97 ≤ c.toNat ∧ c.toNat ≤ 122))

/-- Python `\w` word character over ASCII (letter, digit or underscore). -/
def isWordChar (c : Char) : Bool :=
  isAl c || isDig c || c = '_'

/-- ASCII uppercase of one character (Python `str.upper` on the modelled data). -/
def upChar : Char → Char
  | 'a' => 'A' | 'b' => 'B' | 'c' => 'C' | 'd' => 'D' | 'e' => 'E' | 'f' => 'F'
  | 'g' => 'G' | 'h' => 'H' | 'i' => 'I' | 'j' => 'J' | 'k' => 'K' | 'l' => 'L'
  | 'm' => 'M' | 'n' => 'N' | 'o' => 'O' | 'p' => 'P' | 'q' => 'Q' | 'r' => 'R'
  | 's' => 'S' | 't' => 'T' | 'u' => 'U' | 'v' => 'V' | 'w' => 'W' | 'x' => 'X'
  | 'y' => 'Y' | 'z' => 'Z'
  | c => c

/-- ASCII lowercase of one character (Python `str.lower`). -/
def loChar : Char → Char
  | 'A' => 'a' | 'B' => 'b' | 'C' => 'c' | 'D' => 'd' | 'E' => 'e' | 'F' => 'f'
  | 'G' => 'g' | 'H' => 'h' | 'I' => 'i' | 'J' => 'j' | 'K' => 'k' | 'L' => 'l'
  | 'M' => 'm' | 'N' => 'n' | 'O' => 'o' | 'P' => 'p' | 'Q' => 'q' | 'R' => 'r'
  | 'S' => 's' | 'T' => 't' | 'U' => 'u' | 'V' => 'v' | 'W' => 'w' | 'X' => 'x'
  | 'Y' => 'y' | 'Z' => 'z'
  | c => c

/-- Python `str.upper` over the whole string. -/
def pyUpper (s : List Char) : List Char := s.map upChar

/-- Python `str.lower` over the whole string. -/
def pyLower (s : List Char) : List Char := s.map loChar

/-- Python `str.strip()`: drop leading and trailing whitespace. -/
def pyStrip (s : List Char) : List Char :=
  (((s.dropWhile isPySpace).reverse).dropWhile isPySpace).reverse

/-- Python `re.sub(r'\s+', ' ', s)`: each maximal whitespace run becomes one
space. -/
def pyCollapse : List Char → List Char
  | [] => []
  | [c] => if isPySpace c then [' '] else [c]
  | c :: d :: rest =>
    if isPySpace c && isPySpace d then pyCollapse (d :: rest)
    else (if isPySpace c then ' ' else c) :: pyCollapse (d :: rest)

/-- Decimal digit character for a value below ten. -/
def digChar : Nat → Char
  | 0 => '0' | 1 => '1' | 2 => '2' | 3 => '3' | 4 => '4'
  | 5 => '5' | 6 => '6' | 7 => '7' | 8 => '8' | 9 => '9'
  | _ => '*'

/-- Fuel-driven decimal rendering accumulator. -/
def natDigitsAux : Nat → Nat → List Char → List Char
  | 0, _, acc => acc
  | fuel + 1, n, acc =>
    if n < 10 then digChar n :: acc
    else natDigitsAux fuel (n / 10) (digChar (n % 10) :: acc)

/-- Decimal rendering of a natural number, no padding (glibc `%Y` style). -/
def natDigits (n : Nat) : List Char := natDigitsAux (n + 1) n []

/-- Two-digit zero-padded rendering (strftime `%m` / `%d`). -/
def pad2 (n : Nat) : List Char :=
  if n < 10 then '0' :: natDigits n else natDigits n

/-- Decimal rendering of an integer (Python `str` on int). -/
def intRepr (n : Int) : List Char :=
  if n < 0 then '-' :: natDigits n.natAbs else natDigits n.toNat

/-- Value of a digit string read in base ten. -/
def digitsToNat (s : List Char) : Nat :=
  s.foldl (fun a c => 10 * a + digitVal c) 0

/-- Smallest decimal exponent (up to 40) clearing the denominator of `q`. -/
def decExp (q : ℚ) : Option Nat :=
  (List.range 41).find? (fun k => (10 : Nat) ^ k % q.den == 0)

/-- Left-pad a digit string with zeros up to length `n`. -/
def padZeros (n : Nat) (s : List Char) : List Char :=
  List.replicate (n - s.length) '0' ++ s

/-- Rendering of a rational as Python renders the corresponding float:
decimal with a forced fractional part for decimal fractions; a `num/den`
fallback marks values outside the decimal-float fragment of the model. -/
def floatRepr (q : ℚ) : List Char :=
  match decExp q with
  | some 0 => intRepr q.num ++ ['.', '0']
  | some (k + 1) =>
    let m := q.num * (10 : Int) ^ (k + 1) / (q.den : Int)
    let ds := padZeros (k + 2) (natDigits m.natAbs)
    let ip := ds.take (ds.length - (k + 1))
    let fp := ds.drop (ds.length - (k + 1))
    (if m < 0 then ['-'] else []) ++ ip ++ '.' :: fp
  | none => intRepr q.num ++ '/' :: natDigits q.den

/-- A raw field value as the Python code sees it: a string, an int, a float
(modelled as an exact rational) or None. -/
inductive Value where
  | null : Value
  | str : List Char → Value
  | intV : Int → Value
  | floatV : ℚ → Value
deriving DecidableEq

/-- Python truthiness of a raw value (`if not value: ...`). -/
def truthy : Value → Bool
  | Value.null => false
  | Value.str s => !(s == [])
  | Value.intV n => !(n == 0)
  | Value.floatV q => !(q == 0)

/-- Python `value == lit` against a string literal. -/
def valueEqStr (v : Value) (lit : String) : Bool :=
  match v with
  | Value.str t => t == lit.toList
  | _ => false

/-- `pd.isna` over the modelled values (no NaN in the model). -/
def isNA (v : Value) : Bool := v == Value.null

/-- Python `str(value)` over the modelled values. -/
def pyStr : Value → List Char
  | Value.null => "None".toList
  | Value.str s => s
  | Value.intV n => intRepr n
  | Value.floatV q => floatRepr q

/- ### Date parsing: `TCPDataStandardizer.standardize_date` -/

/-- Already-ISO test, regex `^\d{4}-\d{2}-\d{2}$` of `standardize_date`. -/
def isIsoShape : List Char → Bool
  | [a, b, c, d, h1, e, f, h2, g, k] =>
    isDig a && isDig b && isDig c && isDig d && (h1 == '-') &&
    isDig e && isDig f && (h2 == '-') && isDig g && isDig k
  | _ => false

/-- One `strptime` directive of the formats the standardizer tries. -/
inductive Tok where
  | lit : Char → Tok
  | ws : Tok
  | dayT : Tok
  | monT : Tok
  | yearT : Tok
  | monthFull : Tok
  | monthAbbr : Tok

/-- Full month names with their numbers (strptime `%B`, case-insensitive). -/
def monthsFull : List (List Char × Nat) :=
  [("january".toList, 1), ("february".toList, 2), ("march".toList, 3),
   ("april".toList, 4), ("may".toList, 5), ("june".toList, 6),
   ("july".toList, 7), ("august".toList, 8), ("september".toList, 9),
   ("october".toList, 10), ("november".toList, 11), ("december".toList, 12)]

/-- Abbreviated month names (strptime `%b`, case-insensitive). -/
def monthsAbbr : List (List Char × Nat) :=
  [("jan".toList, 1), ("feb".toList, 2), ("mar".toList, 3), ("apr".toList, 4),
   ("may".toList, 5), ("jun".toList, 6), ("jul".toList, 7), ("aug".toList, 8),
   ("sep".toList, 9), ("oct".toList, 10), ("nov".toList, 11), ("dec".toList, 12)]

/-- Case-insensitive test that `pat` (given lowercase) heads the input. -/
def ciPre (pat s : List Char) : Bool :=
  pat == (s.take pat.length).map loChar

/-- Match one month name from `table` at the head of the input. -/
def matchMonth : List (List Char × Nat) → List Char → Option (Nat × List Char)
  | [], _ => none
  | (nm, v) :: rest, s =>
    if ciPre nm s then some (v, s.drop nm.length) else matchMonth rest s

/-- Two-digit day pattern of strptime `%d` (`3[01]|[12]\d|0[1-9]`). -/
def day2Ok (c1 c2 : Char) : Bool :=
  (c1 == '3' && (c2 == '0' || c2 == '1')) ||
  ((c1 == '1' || c1 == '2') && isDig c2) ||
  (c1 == '0' && isDig c2 && !(c2 == '0'))

/-- Two-digit month pattern of strptime `%m` (`1[0-2]|0[1-9]`). -/
def mon2Ok (c1 c2 : Char) : Bool :=
  (c1 == '1' && (c2 == '0' || c2 == '1' || c2 == '2')) ||
  (c1 == '0' && isDig c2 && !(c2 == '0'))

/-- Single-digit pattern `[1-9]`. -/
def dig19 (c : Char) : Bool := isDig c && !(c == '0')

/-- Parse a one-or-two digit numeric directive; the two-digit branch is taken
exactly when the regex alternation would keep it (its one-digit fallback always
strands a digit in front of the following separator, so no backtracking case is
lost in these formats). -/
def parse2or1 (ok2 : Char → Char → Bool) : List Char → Option (Nat × List Char)
  | c1 :: c2 :: rest =>
    if isDig c1 && isDig c2 && ok2 c1 c2 then
      some (10 * digitVal c1 + digitVal c2, rest)
    else if dig19 c1 then some (digitVal c1, c2 :: rest)
    else none
  | [c1] => if dig19 c1 then some (digitVal c1, []) else none
  | [] => none

/-- Parse strptime `%Y`: exactly four digits. -/
def parseY4 : List Char → Option (Nat × List Char)
  | c1 :: c2 :: c3 :: c4 :: rest =>
    if isDig c1 && isDig c2 && isDig c3 && isDig c4 then
      some (digitsToNat [c1, c2, c3, c4], rest)
    else none
  | _ => none

/-- Run a format's directives over the input, threading strptime's default
year/month/day 1900/1/1; the whole input must be consumed. -/
def runToks : List Tok → List Char → Nat → Nat → Nat → Option (Nat × Nat × Nat)
  | [], [], y, m, d => some (y, m, d)
  | [], _ :: _, _, _, _ => none
  | t :: ts, s, y, m, d =>
    match t with
    | Tok.lit c =>
      match s with
      | c1 :: rest => if c1 == c then runToks ts rest y m d else none
      | [] => none
    | Tok.ws =>
      match s with
      | c1 :: rest =>
        if isPySpace c1 then runToks ts (rest.dropWhile isPySpace) y m d
        else none
      | [] => none
    | Tok.dayT =>
      match parse2or1 day2Ok s with
      | some (v, rest) => runToks ts rest y m v
      | none => none
    | Tok.monT =>
      match parse2or1 mon2Ok s with
      | some (v, rest) => runToks ts rest y v d
      | none => none
    | Tok.yearT =>
      match parseY4 s with
      | some (v, rest) => runToks ts rest v m d
      | none => none
    | Tok.monthFull =>
      match matchMonth monthsFull s with
      | some (v, rest) => runToks ts rest y v d
      | none => none
    | Tok.monthAbbr =>
      match matchMonth monthsAbbr s with
      | some (v, rest) => runToks ts rest y v d
      | none => none

/-- Gregorian leap-year rule used by `datetime`. -/
def isLeap (y : Nat) : Bool :=
  y % 4 == 0 && (!(y % 100 == 0) || y % 400 == 0)

/-- Days in a month, as validated by the `datetime` constructor. -/
def daysInMonth (y m : Nat) : Nat :=
  if m == 2 then (if isLeap y then 29 else 28)
  else if m == 4 || m == 6 || m == 9 || m == 11 then 30
  else 31

/-- `datetime` constructor validity (its ValueError makes strptime fail). -/
def validYMD (y m d : Nat) : Bool :=
  1 ≤ y && y ≤ 9999 && 1 ≤ m && m ≤ 12 && 1 ≤ d && d ≤ daysInMonth y m

/-- strftime `"%Y-%m-%d"` on the parsed date (glibc: the year is unpadded). -/
def isoOfYMD (y m d : Nat) : List Char :=
  natDigits y ++ '-' :: (pad2 m ++ '-' :: pad2 d)

/-- One `strptime(date_str, fmt)` attempt followed by `strftime("%Y-%m-%d")`. -/
def runFmt (f : List Tok) (s : List Char) : Option (List Char) :=
  match runToks f s 1900 1 1 with
  | some (y, m, d) => if validYMD y m d then some (isoOfYMD y m d) else none
  | none => none

/-- The `DATE_FORMATS` table, in source order. -/
def dateFormats : List (List Tok) :=
  [[Tok.monthFull, Tok.ws, Tok.dayT, Tok.lit ',', Tok.ws, Tok.yearT],
   [Tok.dayT, Tok.ws, Tok.monthFull, Tok.ws, Tok.yearT],
   [Tok.monthAbbr, Tok.ws, Tok.dayT, Tok.lit ',', Tok.ws, Tok.yearT],
   [Tok.dayT, Tok.ws, Tok.monthAbbr, Tok.ws, Tok.yearT],
   [Tok.yearT, Tok.lit '-', Tok.monT, Tok.lit '-', Tok.dayT],
   [Tok.dayT, Tok.lit '/', Tok.monT, Tok.lit '/', Tok.yearT],
   [Tok.monT, Tok.lit '/', Tok.dayT, Tok.lit '/', Tok.yearT],
   [Tok.dayT, Tok.lit '.', Tok.monT, Tok.lit '.', Tok.yearT],
   [Tok.yearT, Tok.lit '/', Tok.monT, Tok.lit '/', Tok.dayT],
   [Tok.monthFull, Tok.ws, Tok.yearT],
   [Tok.monthAbbr, Tok.ws, Tok.yearT]]

/-- First format in the table that parses (the source's loop). -/
def tryFormats : List (List Tok) → List Char → Option (List Char)
  | [], _ => none
  | f :: fs, s =>
    match runFmt f s with
    | some r => some r
    | none => tryFormats fs s

/-- Try `(Month)\s+(\d{4})` anchored at the current position. -/
def tryMonthYearAt (s : List Char) : Option (Nat × List Char) :=
  match matchMonth monthsFull s with
  | some (v, rest) =>
    match rest with
    | c :: rest2 =>
      if isPySpace c then
        match rest2.dropWhile isPySpace with
        | c1 :: c2 :: c3 :: c4 :: _ =>
          if isDig c1 && isDig c2 && isDig c3 && isDig c4 then
            some (v, [c1, c2, c3, c4])
          else none
        | _ => none
      else none
    | [] => none
  | none => none

/-- `re.search` of the month-year pattern: leftmost position that matches. -/
def myScan : List Char → Option (Nat × List Char)
  | [] => none
  | c :: rest =>
    match tryMonthYearAt (c :: rest) with
    | some r => some r
    | none => myScan rest

/-- The month-year fallback branch: reparse as `"%B %Y"` (which only rejects
year zero) and print `"%Y-%m-01"`. -/
def monthYearResult (s : List Char) : Option (List Char) :=
  match myScan s with
  | some (mv, y4) =>
    if 1 ≤ digitsToNat y4 then
      some (natDigits (digitsToNat y4) ++ '-' :: (pad2 mv ++ "-01".toList))
    else none
  | none => none

/-- Try `\b(19|20)\d{2}\b` anchored at the current position, `prev` being the
character just before it. -/
def checkYearAt (prev : Option Char) : List Char → Option (List Char)
  | c1 :: c2 :: c3 :: c4 :: rest =>
    if ((c1 == '1' && c2 == '9') || (c1 == '2' && c2 == '0')) &&
       isDig c3 && isDig c4 &&
       (match prev with | none => true | some p => !(isWordChar p)) &&
       (match rest with | [] => true | r :: _ => !(isWordChar r)) then
      some [c1, c2, c3, c4]
    else none
  | _ => none

/-- `re.search` of the bare-year pattern: leftmost match wins. -/
def yearScanAux (prev : Option Char) : List Char → Option (List Char)
  | [] => none
  | c :: rest =>
    match checkYearAt prev (c :: rest) with
    | some y4 => some y4
    | none => yearScanAux (some c) rest

/-- The bare-year fallback: the matched four digits verbatim plus `"-01-01"`. -/
def yearSearchRes (s : List Char) : Option (List Char) :=
  match yearScanAux none s with
  | some y4 => some (y4 ++ "-01-01".toList)
  | none => none

/-- `TCPDataStandardizer.standardize_date`. -/
def standardize_date (v : Value) : Option (List Char) :=
  if !(truthy v) || valueEqStr v "null" || isNA v then none
  else if isIsoShape (pyStrip (pyStr v)) then some (pyStrip (pyStr v))
  else
    match tryFormats dateFormats (pyStrip (pyStr v)) with
    | some r => some r
    | none =>
      match monthYearResult (pyStrip (pyStr v)) with
      | some r => some r
      | none => yearSearchRes (pyStrip (pyStr v))

example : standardize_date (Value.str "January 15, 2024".toList) =
    some "2024-01-15".toList := by decide

example : standardize_date (Value.str "15/01/2024".toList) =
    some "2024-01-15".toList := by decide

example : standardize_date (Value.str "January 2024".toList) =
    some "2024-01-01".toList := by decide

example : standardize_date (Value.str "2026".toList) =
    some "2026-01-01".toList := by decide

example : standardize_date Value.null = none := by decide

example : standardize_date (Value.str "On or about February 1, 2024".toList) =
    some "2024-01-01".toList := by decide

example : standardize_date (Value.str "NULL".toList) = none := by decide

/- ### Vessel names: `TCPDataStandardizer.standardize_vessel_name` -/

/-- The regex `^(M/V|MT|MV|M\.V\.|S\.S\.|SS)` of the vessel normalizer. -/
def vesselPre (s : List Char) : Bool :=
  ["M/V", "MT", "MV", "M.V.", "S.S.", "SS"].any
    (fun p => p.toList.isPrefixOf s)

/-- Substring test (Python `in` on strings): some suffix starts with `pat`. -/
def hasSubstr (pat : List Char) : List Char → Bool
  | [] => pat.isPrefixOf []
  | c :: rest => pat.isPrefixOf (c :: rest) || hasSubstr pat rest

/-- The company-entity keyword test (`keyword in name` over the fixed list). -/
def companyKw (s : List Char) : Bool :=
  ["LTD", "INC", "CORP", "COMPANY", "HOLDINGS", "AS", "SA", "LLC"].any
    (fun k => hasSubstr k.toList s)

/-- `re.sub(r'^M\.V\.\s*', 'M/V ', s)`: anchored, zero-or-more whitespace. -/
def subMVdots (s : List Char) : List Char :=
  match s with
  | 'M' :: '.' :: 'V' :: '.' :: rest => "M/V ".toList ++ rest.dropWhile isPySpace
  | _ => s

/-- `re.sub(r'^MV\s+', 'M/V ', s)`: anchored, at least one whitespace. -/
def subMV (s : List Char) : List Char :=
  match s with
  | 'M' :: 'V' :: c :: rest =>
    if isPySpace c then "M/V ".toList ++ rest.dropWhile isPySpace
    else s
  | _ => s

/-- `re.sub(r'^M\.T\.\s*', 'MT ', s)`. -/
def subMTdots (s : List Char) : List Char :=
  match s with
  | 'M' :: '.' :: 'T' :: '.' :: rest => "MT ".toList ++ rest.dropWhile isPySpace
  | _ => s

/-- `re.sub(r'^MT\s+', 'MT ', s)`. -/
def subMT (s : List Char) : List Char :=
  match s with
  | 'M' :: 'T' :: c :: rest =>
    if isPySpace c then "MT ".toList ++ rest.dropWhile isPySpace
    else s
  | _ => s

/-- The prefix-enforcement step of the vessel normalizer: prepend `M/V ` when
no recognized prefix and no company keyword is present. -/
def vesselAddPre (n : List Char) : List Char :=
  if vesselPre n then n
  else if companyKw n then n
  else "M/V ".toList ++ n

/-- `TCPDataStandardizer.standardize_vessel_name`. -/
def standardize_vessel_name (v : Value) : Option (List Char) :=
  if !(truthy v) || valueEqStr v "null" || isNA v then none
  else
    some (pyStrip (pyCollapse (subMT (subMTdots (subMV (subMVdots
      (vesselAddPre (pyCollapse (pyUpper (pyStrip (pyStr v)))))))))))

example : standardize_vessel_name (Value.str "northern star".toList) =
    some "M/V NORTHERN STAR".toList := by decide

example : standardize_vessel_name (Value.str "MV NORTHERN STAR".toList) =
    some "M/V NORTHERN STAR".toList := by decide

example : standardize_vessel_name (Value.str "M.V. PACIFIC DAWN".toList) =
    some "M/V PACIFIC DAWN".toList := by decide

example : standardize_vessel_name (Value.str "MT PACIFIC DAWN".toList) =
    some "MT PACIFIC DAWN".toList := by decide

example : standardize_vessel_name (Value.str "  northern  star  ".toList) =
    some "M/V NORTHERN STAR".toList := by decide

example : standardize_vessel_name (Value.str "NULL".toList) =
    some "M/V NULL".toList := by decide

example : standardize_vessel_name (Value.str "   ".toList) =
    some "M/V".toList := by decide

/- ### Numbers: `extract_numeric_value` and `standardize_currency` -/

/-- The characters removed by `re.sub(r'[,$€£¥\s]', '', s)`. -/
def isStripSym (c : Char) : Bool :=
  c == ',' || c == '$' || c == '€' || c == '£' || c == '¥' || isPySpace c

/-- Remove separators, currency symbols and whitespace everywhere. -/
def stripSyms (s : List Char) : List Char := s.filter (fun c => !(isStripSym c))

/-- Greedy capture of `\d+\.?\d*` starting at a digit. -/
def grabNum (s : List Char) : List Char :=
  let ds := s.takeWhile isDig
  match s.dropWhile isDig with
  | '.' :: r => ds ++ '.' :: r.takeWhile isDig
  | _ => ds

/-- `re.search(r'-?\d+\.?\d*', s)`: leftmost signed or unsigned number. -/
def firstNumTok : List Char → Option (List Char)
  | [] => none
  | c :: rest =>
    if isDig c then some (grabNum (c :: rest))
    else if c == '-' && (match rest with | d :: _ => isDig d | [] => false) then
      some ('-' :: grabNum rest)
    else firstNumTok rest

/-- `float()` on a matched number token: sign, integer part and fraction give
the exact rational `ip + fp / 10 ^ len`, built here as one quotient so that it
evaluates by kernel reduction. -/
def parseDec (tok : List Char) : ℚ :=
  let core := fun (t : List Char) =>
    let ip := t.takeWhile isDig
    let fp := match t.dropWhile isDig with
      | '.' :: r => r.takeWhile isDig
      | _ => []
    mkRat (digitsToNat ip * 10 ^ fp.length + digitsToNat fp) (10 ^ fp.length)
  match tok with
  | '-' :: t => -(core t)
  | t => core t

/-- `TCPDataStandardizer.extract_numeric_value`. -/
def extract_numeric_value (v : Value) : Option ℚ :=
  if !(truthy v) || valueEqStr v "null" || isNA v then none
  else
    match v with
    | Value.intV n => some (n : ℚ)
    | Value.floatV q => some q
    | _ =>
      match firstNumTok (stripSyms (pyStrip (pyStr v))) with
      | some tok => some (parseDec tok)
      | none => none

/-- Python `int()` on a float: truncation toward zero. -/
def pyInt (q : ℚ) : Int :=
  if q < 0 then -((-q).floor) else q.floor

/-- Round-half-to-even to an integer (Python `round` at exact halves): the
fractional part `q - ⌊q⌋ = (num - ⌊q⌋·den)/den` is compared with one half by
the integer comparison `2·(num - ⌊q⌋·den)` against `den`. -/
def roundHalfEven (q : ℚ) : Int :=
  let f := q.floor
  let r2 := 2 * (q.num - f * (q.den : Int))
  if r2 < (q.den : Int) then f
  else if (q.den : Int) < r2 then f + 1
  else if f % 2 == 0 then f else f + 1

/-- Python `round(q, dp)` over the decimal-exact fragment of the model:
scale by `10 ^ dp`, round half to even, scale back. -/
def pyRound (q : ℚ) (dp : Nat) : ℚ :=
  mkRat (roundHalfEven (mkRat (q.num * (10 ^ dp : Nat)) q.den)) (10 ^ dp)

/-- `TCPDataStandardizer.standardize_currency`. -/
def standardize_currency (v : Value) (dp : Nat := 2) : Option ℚ :=
  (extract_numeric_value v).map (fun q => pyRound q dp)

example : extract_numeric_value (Value.str "82,500 metric tons".toList) =
    some 82500 := by decide

example : extract_numeric_value (Value.str "IMO 9876543".toList) =
    some 9876543 := by decide

example : extract_numeric_value (Value.str "36-month charter".toList) =
    some 36 := by decide

example : extract_numeric_value (Value.intV 24) = some 24 := by decide

example : extract_numeric_value (Value.intV 0) = none := by decide

example : standardize_currency (Value.str "$11,850.50".toList) =
    some (mkRat 23701 2) := by decide

example : standardize_currency (Value.str "USD 18,500 per day".toList) =
    some 18500 := by decide

example : pyInt (mkRat 47 2) = 23 := by decide

example : pyInt (mkRat (-47) 2) = -23 := by decide

/- ### Text, email, boolean normalizers -/

/-- `TCPDataStandardizer.standardize_text`. -/
def standardize_text (v : Value) : Option (List Char) :=
  if !(truthy v) || valueEqStr v "null" || isNA v then none
  else if pyLower (pyCollapse (pyStrip (pyStr v))) == "null".toList then none
  else if pyCollapse (pyStrip (pyStr v)) == [] then none
  else some (pyCollapse (pyStrip (pyStr v)))

/-- Local-part character class `[a-zA-Z0-9._%+-]` of the email regex. -/
def emailLocalChar (c : Char) : Bool :=
  isAl c || isDig c || c == '.' || c == '_' || c == '%' || c == '+' || c == '-'

/-- Domain character class `[a-zA-Z0-9.-]`. -/
def emailDomChar (c : Char) : Bool :=
  isAl c || isDig c || c == '.' || c == '-'

/-- Match `[a-zA-Z0-9.-]+\.[a-zA-Z]{2,}$`: split at the last dot (the TLD
admits no dot, so backtracking settles there). -/
def emailDomOk (dom : List Char) : Bool :=
  let rd := dom.reverse
  let tldR := rd.takeWhile (fun c => !(c == '.'))
  match rd.dropWhile (fun c => !(c == '.')) with
  | '.' :: restR =>
    let base := restR.reverse
    let tld := tldR.reverse
    !(base == []) && base.all emailDomChar && decide (2 ≤ tld.length) &&
    tld.all isAl
  | _ => false

/-- The full email regex `^[a-zA-Z0-9._%+-]+@[a-zA-Z0-9.-]+\.[a-zA-Z]{2,}$`
(the local class has no `@`, so the first `@` is the split point). -/
def emailOk (s : List Char) : Bool :=
  let loc := s.takeWhile (fun c => !(c == '@'))
  match s.dropWhile (fun c => !(c == '@')) with
  | '@' :: dom => !(loc == []) && loc.all emailLocalChar && emailDomOk dom
  | _ => false

/-- `TCPDataStandardizer.standardize_email`. -/
def standardize_email (v : Value) : Option (List Char) :=
  if !(truthy v) || valueEqStr v "null" || valueEqStr v "-" || isNA v then none
  else if emailOk (pyLower (pyStrip (pyStr v))) then
    some (pyLower (pyStrip (pyStr v)))
  else none

/-- `TCPDataStandardizer.standardize_boolean`. -/
def standardize_boolean (v : Value) : Option (List Char) :=
  if !(truthy v) || valueEqStr v "null" || valueEqStr v "-" || isNA v then none
  else if ["YES", "Y", "TRUE", "1"].any
      (fun w => pyUpper (pyStrip (pyStr v)) == w.toList) then
    some "Yes".toList
  else if ["NO", "N", "FALSE", "0", "N/A", "N/A."].any
      (fun w => pyUpper (pyStrip (pyStr v)) == w.toList) then
    some "No".toList
  else none

example : standardize_email (Value.str " John.Doe@Ship.CO ".toList) =
    some "john.doe@ship.co".toList := by decide

example : standardize_email (Value.str "not-an-email".toList) = none := by
  decide

example : standardize_boolean (Value.str "yes".toList) = some "Yes".toList := by
  decide

example : standardize_boolean (Value.str "n/a.".toList) = some "No".toList := by
  decide

example : standardize_boolean (Value.intV 1) = some "Yes".toList := by decide

example : standardize_text (Value.str "  a   b ".toList) =
    some "a b".toList := by decide

example : standardize_text (Value.str "NULL".toList) = none := by decide

/- ### Record builder: `standardize_contract_data` (53-field schema) -/

/-- Dict lookup, first match. -/
def lookupF : List (String × Value) → String → Option Value
  | [], _ => none
  | (k, v) :: r, f => if k = f then some v else lookupF r f

/-- Field names of a record. -/
def keysOf (r : List (String × Value)) : List String := r.map Prod.fst

/-- One field-group loop of `standardize_contract_data`:
`for field in l: if field in raw_data: standardized[field] = g(raw_data[field])`. -/
def mapFields (raw : List (String × Value)) (g : Value → Value) :
    List String → List (String × Value)
  | [] => []
  | f :: fs =>
    match lookupF raw f with
    | some v => (f, g v) :: mapFields raw g fs
    | none => mapFields raw g fs

/-- Wrap an optional normalized string back into a dict value. -/
def optStrV : Option (List Char) → Value
  | some s => Value.str s
  | none => Value.null

/-- The eleven date fields of the 53-field schema. -/
def dateFields : List String :=
  ["TCP DATE", "DELIVERY DATE", "REDELIVERY DATE",
   "OPTION DECLARATION DATE.", "EARLIEST REDELIVERY DATE.",
   "LATEST REDELIVERY DATE.", "EARLIEST REDELIVERY NOTICE DATE.",
   "LATEST REDELIVERY NOTICE DATE", "OFFHIRE DECLARATION DATE(CL 4(B))",
   "Original Annual Anniversary Date", "Revised Annual Anniversary Date"]

/-- The eight integer-numeric fields. -/
def numericIntFields : List String :=
  ["NUMBER OF DAYS PRIOR REDELIVERY DATE TO DECLARE THE OPTION",
   "REDEL CHOP minus DAYS", "REDEL CHOP plus DAYS",
   "FIRST REDEL NOTICE", "NUMBER OF DAYS PRIOR REDELIVERY DATE TO DECLARE THIS",
   "IMO NUMBER", "BUILT", "DWT"]

/-- The four email fields. -/
def emailFields : List String :=
  ["BROKERS EMAIL", "VESSEL EMAIL", "OWNER EMAIL ADDRESS",
   "TECHNICAL MANAGER EMAIL ADDRESS"]

/-- The twenty-seven uppercased free-text fields. -/
def upperTextFields : List String :=
  ["TRADE", "TYPE AUTO.", "CONTRACT TYPE", "OWNERS.", "CHARTERERS",
   "CHARTER LENGTH", "OPTION PERIODS", "STTC/ LTTC", "REDELIVERY LOCATION",
   "ALL REDEL NOTICES", "LAST CARGOES ON REDELIVERY", "SLOPS ON REDELIVERY",
   "CLEANING REQUIREMENTS ON REDELIVERY",
   "OTHER REDELIVERY TERMS (E#G BALLAST BONUS)",
   "BUNKERS ON REDELIVERY(CL 15)", "FIXED/ MARKET RELATED",
   "BENEFICIAL OWNER (FROM BANK DETAILS)", "DRY-DOCK LOCATION",
   "BROKER", "FLAG", "TECHNICAL MANAGER", "P&I CLUB",
   "H&M VALUE USDM", "CLASSIFICATION SOCIETY", "IMO TYPE", "ICE CLASS",
   "LENGTH OF NEXT OPTION"]

/-- The vessel-name field. -/
def vesselField : String := "VESSEL NAME"

/-- The currency/rate field kept as a string. -/
def rateField : String := "CURRENT TC RATE(CL 8)"

/-- The single boolean field. -/
def boolField : String := "CAN OFFHIRE BE ADDED?(CL 4(B))"

/-- Date group: ISO-converted. -/
def gDate (v : Value) : Value := optStrV (standardize_date v)

/-- Vessel group: kept close to the original, trimmed and uppercased (the
53-field path deliberately skips the `M/V` logic). -/
def gVessel (v : Value) : Value :=
  if truthy v && !(valueEqStr v "null") && !(valueEqStr v "-") then
    Value.str (pyUpper (pyStrip (pyStr v)))
  else Value.null

/-- Integer group: numeric extraction then `int()`. -/
def gInt (v : Value) : Value :=
  match extract_numeric_value v with
  | some q => Value.intV (pyInt q)
  | none => Value.null

/-- Rate group: the raw string trimmed, preserving the `35,000` format. -/
def gRate (v : Value) : Value :=
  if truthy v && !(valueEqStr v "null") && !(valueEqStr v "-") then
    Value.str (pyStrip (pyStr v))
  else Value.null

/-- Email group. -/
def gEmail (v : Value) : Value := optStrV (standardize_email v)

/-- Boolean group. -/
def gBool (v : Value) : Value := optStrV (standardize_boolean v)

/-- Uppercase-text group: trimmed and uppercased, the `"-"` sentinel kept. -/
def gText (v : Value) : Value :=
  if truthy v && !(valueEqStr v "null") && !(valueEqStr v "-") && !(isNA v) then
    Value.str (pyUpper (pyStrip (pyStr v)))
  else if valueEqStr v "-" then v
  else Value.null

/-- `TCPDataStandardizer.standardize_contract_data`, group order as in the
source. -/
def standardize_contract_data (raw : List (String × Value)) :
    List (String × Value) :=
  mapFields raw gDate dateFields ++
  mapFields raw gVessel [vesselField] ++
  mapFields raw gInt numericIntFields ++
  mapFields raw gRate [rateField] ++
  mapFields raw gEmail emailFields ++
  mapFields raw gBool [boolField] ++
  mapFields raw gText upperTextFields

/-- All 53 field names handled by `standardize_contract_data`, in handling
order. -/
def schema53 : List String :=
  dateFields ++ [vesselField] ++ numericIntFields ++ [rateField] ++
  emailFields ++ [boolField] ++ upperTextFields

example : schema53.length = 53 := by decide

example : standardize_contract_data
    [("VESSEL NAME", Value.str "northern star".toList),
     ("TCP DATE", Value.str "January 15, 2024".toList),
     ("BUILT", Value.str "2018".toList),
     ("UNKNOWN FIELD", Value.str "x".toList)] =
    [("TCP DATE", Value.str "2024-01-15".toList),
     ("VESSEL NAME", Value.str "NORTHERN STAR".toList),
     ("BUILT", Value.intV 2018)] := by decide

/- ### Columnar table: `create_columnar_dataframe` -/

/-- The Excel template column order (53 columns) from the source. -/
def column_order : List String :=
  ["VESSEL NAME", "TRADE", "TYPE AUTO.", "TCP DATE", "CONTRACT TYPE",
   "OWNERS.", "CHARTERERS", "CHARTER LENGTH", "OPTION PERIODS",
   "LENGTH OF NEXT OPTION",
   "NUMBER OF DAYS PRIOR REDELIVERY DATE TO DECLARE THE OPTION",
   "OPTION DECLARATION DATE.", "STTC/ LTTC", "DELIVERY DATE",
   "REDELIVERY DATE", "REDEL CHOP minus DAYS", "REDEL CHOP plus DAYS",
   "REDELIVERY LOCATION", "FIRST REDEL NOTICE", "EARLIEST REDELIVERY DATE.",
   "LATEST REDELIVERY DATE.", "EARLIEST REDELIVERY NOTICE DATE.",
   "LATEST REDELIVERY NOTICE DATE", "ALL REDEL NOTICES",
   "LAST CARGOES ON REDELIVERY", "SLOPS ON REDELIVERY",
   "CLEANING REQUIREMENTS ON REDELIVERY", "CAN OFFHIRE BE ADDED?(CL 4(B))",
   "NUMBER OF DAYS PRIOR REDELIVERY DATE TO DECLARE THIS",
   "OFFHIRE DECLARATION DATE(CL 4(B))",
   "OTHER REDELIVERY TERMS (E#G BALLAST BONUS)",
   "BUNKERS ON REDELIVERY(CL 15)", "CURRENT TC RATE(CL 8)",
   "FIXED/ MARKET RELATED", "BENEFICIAL OWNER (FROM BANK DETAILS)",
   "DRY-DOCK LOCATION", "BROKER", "BROKERS EMAIL",
   "Original Annual Anniversary Date", "Revised Annual Anniversary Date",
   "IMO NUMBER", "BUILT", "FLAG", "VESSEL EMAIL", "OWNER EMAIL ADDRESS",
   "TECHNICAL MANAGER", "TECHNICAL MANAGER EMAIL ADDRESS", "P&I CLUB",
   "H&M VALUE USDM", "CLASSIFICATION SOCIETY", "IMO TYPE", "ICE CLASS", "DWT"]

/-- Insert a key at the end unless already present (dict-union step of
`pd.DataFrame(list_of_dicts)`). -/
def addKey (acc : List String) (k : String) : List String :=
  if k ∈ acc then acc else acc ++ [k]

/-- Column union across records in first-seen order, as pandas builds the
frame from a list of dicts. -/
def seenCols (contracts : List (List (String × Value))) : List String :=
  contracts.foldl (fun acc r => (keysOf r).foldl addKey acc) []

/-- The column list of `create_columnar_dataframe`: template columns that
occur, in template order, then the remaining columns in first-seen order. -/
def create_columnar_cols (contracts : List (List (String × Value))) :
    List String :=
  if contracts = [] then []
  else
    let cols := seenCols contracts
    column_order.filter (fun c => c ∈ cols) ++
    cols.filter (fun c => c ∉ column_order)

/-- One cell of the columnar frame: a record without the column renders as
absence (pandas NaN), never an error. -/
def tableCell (r : List (String × Value)) (c : String) : Option Value :=
  lookupF r c

example : create_columnar_cols
    [[("EXTRA", Value.intV 1), ("BUILT", Value.intV 2018)],
     [("TCP DATE", Value.str "2024-01-15".toList), ("ZZZ", Value.null)]] =
    ["TCP DATE", "BUILT", "EXTRA", "ZZZ"] := by decide

/- ### The 33-field snake_case schema variant, modelled from the spec -/

/-- Modelled from the spec: the field kinds of §3 (`FieldKind`), the
33-field snake_case schema variant not present under `src/`. -/
inductive FieldKind where
  | date : FieldKind
  | ident : FieldKind
  | numInt : FieldKind
  | currency : FieldKind
  | freeText : FieldKind
  | email : FieldKind
  | boolean : FieldKind
deriving DecidableEq

/-- Modelled from the spec: §4.2 `standardize` dispatch — the normalizer of
the declared kind applied to one raw value. -/
def applyKind : FieldKind → Value → Value
  | FieldKind.date, v => optStrV (standardize_date v)
  | FieldKind.ident, v => optStrV (standardize_vessel_name v)
  | FieldKind.numInt, v =>
    match extract_numeric_value v with
    | some q => Value.intV (pyInt q)
    | none => Value.null
  | FieldKind.currency, v =>
    match standardize_currency v 2 with
    | some q => Value.floatV q
    | none => Value.null
  | FieldKind.freeText, v => optStrV (standardize_text v)
  | FieldKind.email, v => optStrV (standardize_email v)
  | FieldKind.boolean, v => optStrV (standardize_boolean v)

/-- Kind lookup in a schema table. -/
def kindOf : List (String × FieldKind) → String → Option FieldKind
  | [], _ => none
  | (k, fk) :: r, f => if k = f then some fk else kindOf r f

/-- Modelled from the spec: `standardize(rawRecord, schema)` — for each field
present in both the raw record and the schema, apply the kind's normalizer;
schema fields absent from the input are skipped. -/
def standardizeSpec (schema : List (String × FieldKind))
    (raw : List (String × Value)) : List (String × Value) :=
  raw.foldr
    (fun (p : String × Value) acc =>
      match kindOf schema p.1 with
      | some fk => (p.1, applyKind fk p.2) :: acc
      | none => acc) []

/-- Modelled from the spec: the slice of the 33-field snake_case schema
exercised by the specification's end-to-end example (the full 33-field list is
not reproduced in the repository). -/
def schema33 : List (String × FieldKind) :=
  [("contract_number", FieldKind.freeText),
   ("contract_date", FieldKind.date),
   ("vessel_name", FieldKind.ident),
   ("imo_number", FieldKind.numInt),
   ("year_built", FieldKind.numInt),
   ("charter_period_months", FieldKind.numInt),
   ("daily_hire_rate_usd", FieldKind.currency),
   ("delivery_date", FieldKind.date),
   ("delivery_port", FieldKind.freeText),
   ("redelivery_port", FieldKind.freeText),
   ("next_special_survey", FieldKind.date),
   ("owner_name", FieldKind.freeText),
   ("charterer_name", FieldKind.freeText)]

example : standardizeSpec schema33
    [("vessel_name", Value.str "northern star".toList),
     ("daily_hire_rate_usd", Value.str "$18,500 per day".toList),
     ("charter_period_months", Value.str "24".toList),
     ("year_built", Value.str "2018".toList),
     ("contract_date", Value.str "January 15, 2024".toList)] =
    [("vessel_name", Value.str "M/V NORTHERN STAR".toList),
     ("daily_hire_rate_usd", Value.floatV 18500),
     ("charter_period_months", Value.intV 24),
     ("year_built", Value.intV 2018),
     ("contract_date", Value.str "2024-01-15".toList)] := by decide

/-- Shape test for one zero-padded two-digit block. -/
def twoDig : List Char → Bool
  | [a, b] => isDig a && isDig b
  | _ => false

/-- The canonical output shape of every non-absent date result: a nonempty
digit run, a dash, two digits, a dash, two digits. -/
def dateShape (s : List Char) : Bool :=
  !(s.takeWhile isDig == []) &&
  (match s.dropWhile isDig with
   | '-' :: m1 :: m2 :: '-' :: d1 :: d2 :: [] =>
     isDig m1 && isDig m2 && isDig d1 && isDig d2
   | _ => false)

/-- No two adjacent whitespace characters. -/
def noDoubleSpace : List Char → Bool
  | a :: b :: t => !(isPySpace a && isPySpace b) && noDoubleSpace (b :: t)
  | _ => true

/-- A vessel name already in canonical form: a canonical `M/V ` or `MT `
prefix, uppercase throughout, whitespace collapsed to single spaces, and no
trailing whitespace. -/
def canonVesselB (s : List Char) : Bool :=
  (("M/V ".toList).isPrefixOf s || ("MT ".toList).isPrefixOf s) &&
  s.all (fun c => upChar c == c) &&
  s.all (fun c => !(isPySpace c) || c == ' ') &&
  noDoubleSpace s &&
  (match s.getLast? with | some c => !(isPySpace c) | none => true)

/- ### Character and whitespace lemmas -/

lemma isDig_not_space {c : Char} (h : isDig c = true) : isPySpace c = false := by
  simp only [isDig, decide_eq_true_eq] at h
  simp only [isPySpace, decide_eq_false_iff_not]
  omega

lemma upChar_space (c : Char) : isPySpace (upChar c) = isPySpace c := by
  unfold upChar; split <;> rfl

lemma dropWhile_first_false {p : Char → Bool} {l : List Char} {c : Char}
    {t : List Char} (h : l.dropWhile p = c :: t) : p c = false := by
  have h2 := List.head?_dropWhile_not p l
  rw [h] at h2
  simpa using h2

lemma dropWhile_cons_false {p : Char → Bool} {c : Char} (t : List Char)
    (h : p c = false) : (c :: t).dropWhile p = c :: t := by
  simp [List.dropWhile_cons, h]

lemma mem_of_mem_dropWhile {p : Char → Bool} {l : List Char} {c : Char}
    (h : c ∈ l.dropWhile p) : c ∈ l :=
  (List.dropWhile_sublist p (l := l)).subset h

lemma mem_of_mem_pyStrip {s : List Char} {c : Char} (h : c ∈ pyStrip s) :
    c ∈ s := by
  unfold pyStrip at h
  rw [List.mem_reverse] at h
  have h2 := mem_of_mem_dropWhile h
  rw [List.mem_reverse] at h2
  exact mem_of_mem_dropWhile h2

/- ### `pyStrip` lemmas -/

lemma pyStrip_eq_self {s : List Char}
    (h1 : ∀ c, s.head? = some c → isPySpace c = false)
    (h2 : ∀ c, s.getLast? = some c → isPySpace c = false) :
    pyStrip s = s := by
  unfold pyStrip
  cases s with
  | nil => rfl
  | cons a t =>
    rw [dropWhile_cons_false t (h1 a rfl)]
    rcases hr : (a :: t).reverse with _ | ⟨b, t2⟩
    · exact absurd (congrArg List.length hr) (by simp)
    · have hb : (a :: t).getLast? = some b := by
        rw [← List.head?_reverse, hr]; rfl
      rw [dropWhile_cons_false t2 (h2 b hb), ← hr, List.reverse_reverse]

lemma pyStrip_first_not_space {s : List Char} {c : Char} {t : List Char}
    (h : pyStrip s = c :: t) : isPySpace c = false := by
  unfold pyStrip at h
  set w := ((s.dropWhile isPySpace).reverse).dropWhile isPySpace with hw
  have hwne : w ≠ [] := by
    intro hnil
    rw [hnil] at h
    exact absurd h (by simp)
  obtain ⟨pre, hpre⟩ :=
    (List.dropWhile_suffix (l := (s.dropWhile isPySpace).reverse) isPySpace)
  have hlast : w.getLast? = ((s.dropWhile isPySpace).reverse).getLast? := by
    rw [← hpre, List.getLast?_append_of_ne_nil pre hwne]
  have hc : w.getLast? = some c := by
    have : w.reverse.head? = some c := by rw [h]; rfl
    rwa [List.head?_reverse] at this
  rw [hlast] at hc
  rw [List.getLast?_reverse] at hc
  rcases hd : s.dropWhile isPySpace with _ | ⟨x, u⟩
  · rw [hd] at hc; exact absurd hc (by simp)
  · rw [hd] at hc
    simp only [List.head?_cons, Option.some.injEq] at hc
    subst hc
    exact dropWhile_first_false hd

lemma pyStrip_last_not_space {s : List Char} {c : Char}
    (h : (pyStrip s).getLast? = some c) : isPySpace c = false := by
  unfold pyStrip at h
  rw [List.getLast?_reverse] at h
  rcases hd : ((s.dropWhile isPySpace).reverse).dropWhile isPySpace
    with _ | ⟨x, u⟩
  · rw [hd] at h; exact absurd h (by simp)
  · rw [hd] at h
    simp only [List.head?_cons, Option.some.injEq] at h
    subst h
    exact dropWhile_first_false hd

lemma pyStrip_idem (s : List Char) : pyStrip (pyStrip s) = pyStrip s := by
  apply pyStrip_eq_self
  · intro c hc
    rcases he : pyStrip s with _ | ⟨x, u⟩
    · rw [he] at hc; exact absurd hc (by simp)
    · rw [he] at hc
      simp only [List.head?_cons, Option.some.injEq] at hc
      subst hc
      exact pyStrip_first_not_space he
  · intro c hc
    exact pyStrip_last_not_space hc

lemma pyStrip_all_space {s : List Char} (h : s.all isPySpace = true) :
    pyStrip s = [] := by
  have h1 : s.dropWhile isPySpace = [] := by
    rw [List.dropWhile_eq_nil_iff]
    intro x hx
    exact (List.all_eq_true.mp h) x hx
  unfold pyStrip
  rw [h1]
  rfl

/- ### `pyUpper` lemmas -/

lemma pyUpper_eq_self {s : List Char} (h : ∀ c ∈ s, upChar c = c) :
    pyUpper s = s := by
  unfold pyUpper
  induction s with
  | nil => rfl
  | cons a t ih =>
    rw [List.map_cons, h a (by simp), ih (fun c hc => h c (by simp [hc]))]

/- ### `pyCollapse` lemmas -/

lemma pyCollapse_cons_nonspace {c : Char} (h : isPySpace c = false)
    (t : List Char) : pyCollapse (c :: t) = c :: pyCollapse t := by
  cases t with
  | nil => simp [pyCollapse, h]
  | cons d r => simp [pyCollapse, h]

lemma pyCollapse_head (d : Char) (rest : List Char) :
    ∃ t, pyCollapse (d :: rest) = (if isPySpace d then ' ' else d) :: t := by
  induction rest generalizing d with
  | nil => exact ⟨[], by unfold pyCollapse; split <;> rfl⟩
  | cons e r ih =>
    by_cases hd : isPySpace d = true
    · by_cases he : isPySpace e = true
      · obtain ⟨t, ht⟩ := ih e
        refine ⟨t, ?_⟩
        rw [show pyCollapse (d :: e :: r) = pyCollapse (e :: r) by
          simp [pyCollapse, hd, he], ht, he, hd]
        simp
      · refine ⟨pyCollapse (e :: r), ?_⟩
        simp [pyCollapse, hd, he]
    · refine ⟨pyCollapse (e :: r), ?_⟩
      simp only [Bool.not_eq_true] at hd
      simp [pyCollapse, hd]

lemma pyCollapse_space_cons {n : List Char}
    (hn : ∀ x, n.head? = some x → isPySpace x = false) :
    pyCollapse (' ' :: n) = ' ' :: pyCollapse n := by
  cases n with
  | nil => rfl
  | cons x t =>
    have hx : isPySpace x = false := hn x rfl
    simp [pyCollapse, hx]

lemma pyCollapse_cons_cons (c d : Char) (rest : List Char) :
    pyCollapse (c :: d :: rest) =
      if (isPySpace c && isPySpace d) then pyCollapse (d :: rest)
      else (if isPySpace c then ' ' else c) :: pyCollapse (d :: rest) := rfl

lemma pyCollapse_idem (s : List Char) : pyCollapse (pyCollapse s) = pyCollapse s := by
  induction s using pyCollapse.induct with
  | case1 => rfl
  | case2 c hc => simp [pyCollapse, hc]
  | case3 c hc =>
    simp only [Bool.not_eq_true] at hc
    simp [pyCollapse, hc]
  | case4 c d rest h ih =>
    rw [pyCollapse_cons_cons, if_pos h]
    exact ih
  | case5 c d rest h ih =>
    rw [pyCollapse_cons_cons, if_neg h]
    obtain ⟨t, ht⟩ := pyCollapse_head d rest
    rw [ht] at ih ⊢
    have hcond : (isPySpace (if isPySpace c then ' ' else c) &&
        isPySpace (if isPySpace d then ' ' else d)) = false := by
      rcases hc : isPySpace c with _ | _ <;> rcases hd : isPySpace d with _ | _ <;>
        simp_all
    rw [pyCollapse_cons_cons, if_neg (by rw [hcond]; simp), ih]
    congr 1
    rcases hc : isPySpace c with _ | _ <;> simp [hc]

lemma pyCollapse_prepend_MV {n : List Char} (hcol : pyCollapse n = n)
    (hn : ∀ x, n.head? = some x → isPySpace x = false) :
    pyCollapse ("M/V ".toList ++ n) = "M/V ".toList ++ n := by
  show pyCollapse ('M' :: '/' :: 'V' :: ' ' :: n) = 'M' :: '/' :: 'V' :: ' ' :: n
  rw [pyCollapse_cons_nonspace (by decide), pyCollapse_cons_nonspace (by decide),
    pyCollapse_cons_nonspace (by decide), pyCollapse_space_cons hn, hcol]

/- ### takeWhile/dropWhile over appends -/

lemma takeWhile_all_append {p : Char → Bool} {l1 : List Char}
    (l2 : List Char) (h : l1.all p = true) :
    (l1 ++ l2).takeWhile p = l1 ++ l2.takeWhile p := by
  induction l1 with
  | nil => rfl
  | cons a t ih =>
    rw [List.all_cons, Bool.and_eq_true] at h
    rw [List.cons_append, List.takeWhile_cons, h.1]
    simp [ih h.2]

lemma dropWhile_all_append {p : Char → Bool} {l1 : List Char}
    (l2 : List Char) (h : l1.all p = true) :
    (l1 ++ l2).dropWhile p = l2.dropWhile p := by
  induction l1 with
  | nil => rfl
  | cons a t ih =>
    rw [List.all_cons, Bool.and_eq_true] at h
    rw [List.cons_append, List.dropWhile_cons, h.1]
    exact ih h.2

/- ### Digit-string shape lemmas -/

lemma digChar_dig : ∀ m, m < 10 → isDig (digChar m) = true := by decide

lemma natDigitsAux_all (fuel : Nat) :
    ∀ (n : Nat) (acc : List Char), acc.all isDig = true →
      (natDigitsAux fuel n acc).all isDig = true := by
  induction fuel with
  | zero => intro n acc h; exact h
  | succ f ih =>
    intro n acc h
    unfold natDigitsAux
    by_cases hn : n < 10
    · rw [if_pos hn, List.all_cons, digChar_dig n hn, h]; rfl
    · rw [if_neg hn]
      exact ih _ _ (by rw [List.all_cons, digChar_dig (n % 10) (by omega), h]; rfl)

lemma natDigits_all (n : Nat) : (natDigits n).all isDig = true :=
  natDigitsAux_all (n + 1) n [] rfl

lemma natDigitsAux_ne_nil (fuel : Nat) :
    ∀ (n : Nat) (acc : List Char), (acc ≠ [] ∨ 0 < fuel) →
      natDigitsAux fuel n acc ≠ [] := by
  induction fuel with
  | zero =>
    intro n acc h
    rcases h with h | h
    · exact h
    · omega
  | succ f ih =>
    intro n acc h
    unfold natDigitsAux
    by_cases hn : n < 10
    · rw [if_pos hn]; simp
    · rw [if_neg hn]
      exact ih _ _ (Or.inl (by simp))

lemma natDigits_ne_nil (n : Nat) : natDigits n ≠ [] :=
  natDigitsAux_ne_nil (n + 1) n [] (Or.inr (by omega))

lemma twoDig_spec {s : List Char} (h : twoDig s = true) :
    ∃ a b, s = [a, b] ∧ isDig a = true ∧ isDig b = true := by
  rcases s with _ | ⟨a, _ | ⟨b, _ | ⟨c, t⟩⟩⟩ <;> simp [twoDig] at h
  exact ⟨a, b, rfl, h.1, h.2⟩

lemma pad2_twoDig : ∀ n, n < 100 → twoDig (pad2 n) = true := by decide

lemma digitVal_le9 {c : Char} (h : isDig c = true) : digitVal c ≤ 9 := by
  simp only [isDig, decide_eq_true_eq] at h
  unfold digitVal
  omega

lemma digitsToNat4_le {a b c d : Char} (ha : isDig a = true) (hb : isDig b = true)
    (hc : isDig c = true) (hd : isDig d = true) :
    digitsToNat [a, b, c, d] ≤ 9999 := by
  have h1 := digitVal_le9 ha
  have h2 := digitVal_le9 hb
  have h3 := digitVal_le9 hc
  have h4 := digitVal_le9 hd
  simp only [digitsToNat, List.foldl_cons, List.foldl_nil]
  omega

lemma daysInMonth_le31 (y m : Nat) : daysInMonth y m ≤ 31 := by
  unfold daysInMonth
  split
  · split <;> omega
  · split <;> omega

lemma daysInMonth_pos (y m : Nat) : 1 ≤ daysInMonth y m := by
  unfold daysInMonth
  split
  · split <;> omega
  · split <;> omega

lemma dateShape_assemble {ys : List Char} (m d : Nat) (hys : ys.all isDig = true)
    (hne : ys ≠ []) (hm : m < 100) (hd : d < 100) :
    dateShape (ys ++ '-' :: (pad2 m ++ '-' :: pad2 d)) = true := by
  obtain ⟨m1, m2, hm12, hm1, hm2⟩ := twoDig_spec (pad2_twoDig m hm)
  obtain ⟨d1, d2, hd12, hdd1, hdd2⟩ := twoDig_spec (pad2_twoDig d hd)
  unfold dateShape
  rw [takeWhile_all_append _ hys, dropWhile_all_append _ hys]
  have hdash : isDig '-' = false := by decide
  rw [List.takeWhile_cons, hdash, List.dropWhile_cons, hdash]
  simp only [Bool.false_eq_true, if_false]
  rw [hm12, hd12]
  simp [hne, hm1, hm2, hdd1, hdd2]

lemma isoOfYMD_shape {y m d : Nat} (h : validYMD y m d = true) :
    dateShape (isoOfYMD y m d) = true := by
  simp only [validYMD, Bool.and_eq_true, decide_eq_true_eq] at h
  have hd31 : d ≤ 31 := le_trans h.2 (daysInMonth_le31 y m)
  exact dateShape_assemble m d (natDigits_all y) (natDigits_ne_nil y)
    (by omega) (by omega)

lemma isoShape_parts {s : List Char} (h : isIsoShape s = true) :
    ∃ a b c d e f g k, s = [a, b, c, d, '-', e, f, '-', g, k] ∧
      isDig a = true ∧ isDig b = true ∧ isDig c = true ∧ isDig d = true ∧
      isDig e = true ∧ isDig f = true ∧ isDig g = true ∧ isDig k = true := by
  rcases s with _ | ⟨a, _ | ⟨b, _ | ⟨c, _ | ⟨d, _ | ⟨e1, _ | ⟨e, _ | ⟨f, _ |
    ⟨e2, _ | ⟨g, _ | ⟨k, _ | ⟨x, t⟩⟩⟩⟩⟩⟩⟩⟩⟩⟩⟩ <;>
    simp only [isIsoShape, Bool.and_eq_true, beq_iff_eq] at h
  · exact absurd h (by simp)
  · exact absurd h (by simp)
  · exact absurd h (by simp)
  · exact absurd h (by simp)
  · exact absurd h (by simp)
  · exact absurd h (by simp)
  · exact absurd h (by simp)
  · exact absurd h (by simp)
  · exact absurd h (by simp)
  · exact absurd h (by simp)
  · obtain ⟨⟨⟨⟨⟨⟨⟨⟨⟨ha, hb⟩, hc⟩, hd⟩, h1⟩, he⟩, hf⟩, h2⟩, hg⟩, hk⟩ := h
    subst h1; subst h2
    exact ⟨a, b, c, d, e, f, g, k, rfl, ha, hb, hc, hd, he, hf, hg, hk⟩
  · exact absurd h (by simp)

lemma isIsoShape_dateShape {s : List Char} (h : isIsoShape s = true) :
    dateShape s = true := by
  obtain ⟨a, b, c, d, e, f, g, k, rfl, ha, hb, hc, hd, he, hf, hg, hk⟩ :=
    isoShape_parts h
  have hdash : isDig '-' = false := by decide
  unfold dateShape
  simp [List.takeWhile_cons, List.dropWhile_cons, ha, hb, hc, hd, he, hf, hg,
    hk, hdash]

lemma runFmt_shape {f : List Tok} {s r : List Char} (h : runFmt f s = some r) :
    dateShape r = true := by
  unfold runFmt at h
  split at h
  · split at h
    · cases h
      exact isoOfYMD_shape (by assumption)
    · cases h
  · cases h

lemma tryFormats_shape {fmts : List (List Tok)} {s r : List Char}
    (h : tryFormats fmts s = some r) : dateShape r = true := by
  induction fmts with
  | nil => cases h
  | cons f fs ih =>
    unfold tryFormats at h
    split at h
    · cases h
      exact runFmt_shape (by assumption)
    · exact ih h

lemma matchMonth_mem {table : List (List Char × Nat)} {s : List Char} {v : Nat}
    {rest : List Char} (h : matchMonth table s = some (v, rest)) :
    ∃ nm, (nm, v) ∈ table := by
  induction table with
  | nil => cases h
  | cons p r ih =>
    obtain ⟨nm, w⟩ := p
    unfold matchMonth at h
    split at h
    · simp only [Option.some.injEq, Prod.mk.injEq] at h
      exact ⟨nm, by rw [← h.1]; simp⟩
    · obtain ⟨nm2, hm⟩ := ih h
      exact ⟨nm2, by simp [hm]⟩

lemma monthsFull_le12 : ∀ p ∈ monthsFull, 1 ≤ p.2 ∧ p.2 ≤ 12 := by decide

lemma tryMonthYearAt_spec {s : List Char} {v : Nat} {y4 : List Char}
    (h : tryMonthYearAt s = some (v, y4)) :
    (1 ≤ v ∧ v ≤ 12) ∧ y4.all isDig = true ∧ ∃ a b c d, y4 = [a, b, c, d] := by
  unfold tryMonthYearAt at h
  split at h
  · rename_i w rest hm
    split at h
    · rename_i c rest2
      split at h
      · split at h
        · rename_i c1 c2 c3 c4 tail hdw
          split at h
          · rename_i hds
            simp only [Option.some.injEq, Prod.mk.injEq] at h
            obtain ⟨rfl, rfl⟩ := h
            simp only [Bool.and_eq_true] at hds
            obtain ⟨nm, hmem⟩ := matchMonth_mem hm
            refine ⟨(monthsFull_le12 _ hmem : _), ?_, c1, c2, c3, c4, rfl⟩
            simp [hds.1.1.1, hds.1.1.2, hds.1.2, hds.2]
          · cases h
        · cases h
      · cases h
    · cases h
  · cases h

lemma myScan_spec {s : List Char} {v : Nat} {y4 : List Char}
    (h : myScan s = some (v, y4)) :
    (1 ≤ v ∧ v ≤ 12) ∧ y4.all isDig = true ∧ ∃ a b c d, y4 = [a, b, c, d] := by
  induction s with
  | nil => cases h
  | cons c rest ih =>
    unfold myScan at h
    split at h
    · cases h
      exact tryMonthYearAt_spec (by assumption)
    · exact ih h

lemma monthYearResult_shape {s r : List Char} (h : monthYearResult s = some r) :
    dateShape r = true := by
  unfold monthYearResult at h
  split at h
  · rename_i mv y4 hm
    split at h
    · cases h
      obtain ⟨hv, _, _⟩ := myScan_spec hm
      have h01 : ("-01".toList : List Char) = '-' :: pad2 1 := by decide
      rw [h01]
      exact dateShape_assemble mv 1 (natDigits_all _) (natDigits_ne_nil _)
        (by omega) (by omega)
    · cases h
  · cases h

lemma checkYearAt_spec {prev : Option Char} {s y4 : List Char}
    (h : checkYearAt prev s = some y4) :
    ∃ a b c d, y4 = [a, b, c, d] ∧ y4.all isDig = true := by
  unfold checkYearAt at h
  split at h
  · rename_i c1 c2 c3 c4 rest
    split at h
    · rename_i hcond
      simp only [Option.some.injEq] at h
      subst h
      simp only [Bool.and_eq_true, Bool.or_eq_true, beq_iff_eq] at hcond
      refine ⟨c1, c2, c3, c4, rfl, ?_⟩
      have h1 : isDig c1 = true ∧ isDig c2 = true := by
        rcases hcond.1.1.1.1 with ⟨rfl, rfl⟩ | ⟨rfl, rfl⟩ <;>
          exact ⟨by decide, by decide⟩
      simp [h1.1, h1.2, hcond.1.1.1.2, hcond.1.1.2]
    · cases h
  · cases h

lemma yearScanAux_spec {prev : Option Char} {s y4 : List Char}
    (h : yearScanAux prev s = some y4) :
    ∃ a b c d, y4 = [a, b, c, d] ∧ y4.all isDig = true := by
  induction s generalizing prev with
  | nil => cases h
  | cons c rest ih =>
    unfold yearScanAux at h
    split at h
    · cases h
      exact checkYearAt_spec (by assumption)
    · exact ih h

lemma yearSearchRes_shape {s r : List Char} (h : yearSearchRes s = some r) :
    dateShape r = true := by
  unfold yearSearchRes at h
  split at h
  · rename_i y4 hy
    cases h
    obtain ⟨a, b, c, d, rfl, hall⟩ := yearScanAux_spec hy
    unfold dateShape
    rw [show ([a, b, c, d] ++ "-01-01".toList) =
      [a, b, c, d] ++ '-' :: "01-01".toList from rfl]
    rw [takeWhile_all_append _ hall, dropWhile_all_append _ hall]
    have hdash : isDig '-' = false := by decide
    rw [List.takeWhile_cons, hdash, List.dropWhile_cons, hdash]
    simp only [Bool.false_eq_true, if_false]
    simp
    all_goals decide
  · cases h

lemma standardize_date_shape (v : Value) :
    ∀ s, standardize_date v = some s → dateShape s = true := by
  intro s h
  unfold standardize_date at h
  split at h
  · cases h
  · split at h
    · cases h
      exact isIsoShape_dateShape (by assumption)
    · split at h
      · cases h
        exact tryFormats_shape (by assumption)
      · split at h
        · cases h
          exact monthYearResult_shape (by assumption)
        · exact yearSearchRes_shape h

lemma vesselCore_head (s : List Char) :
    ∀ x, (pyCollapse (pyUpper (pyStrip s))).head? = some x →
      isPySpace x = false := by
  intro x hx
  rcases hs : pyStrip s with _ | ⟨a, t⟩
  · rw [hs] at hx
    exact absurd hx (by simp [pyUpper, pyCollapse])
  · have ha : isPySpace a = false := pyStrip_first_not_space hs
    rw [hs] at hx
    have hup : pyUpper (a :: t) = upChar a :: pyUpper t := rfl
    rw [hup] at hx
    obtain ⟨t2, ht2⟩ := pyCollapse_head (upChar a) (pyUpper t)
    rw [ht2, upChar_space, ha] at hx
    simp only [List.head?_cons, Option.some.injEq] at hx
    subst hx
    simpa [upChar_space] using ha

/- ### Record lemmas -/

lemma keysOf_mapFields (raw : List (String × Value)) (g : Value → Value)
    (l : List String) :
    keysOf (mapFields raw g l) = l.filter (fun f => (lookupF raw f).isSome) := by
  induction l with
  | nil => rfl
  | cons f fs ih =>
    unfold mapFields
    rcases hf : lookupF raw f with _ | v
    · rw [List.filter_cons]
      simp only [hf, Option.isSome_none, Bool.false_eq_true, if_false]
      exact ih
    · rw [List.filter_cons]
      simp only [hf, Option.isSome_some, if_true]
      show f :: keysOf (mapFields raw g fs) = f :: _
      rw [ih]

lemma lookupF_cons (k : String) (v : Value) (r : List (String × Value))
    (f : String) :
    lookupF ((k, v) :: r) f = if k = f then some v else lookupF r f := rfl

lemma lookupF_isSome_iff (raw : List (String × Value)) (f : String) :
    (lookupF raw f).isSome = true ↔ f ∈ keysOf raw := by
  induction raw with
  | nil => simp [lookupF, keysOf]
  | cons p r ih =>
    obtain ⟨k, v⟩ := p
    by_cases hk : k = f
    · subst hk
      simp [lookupF, keysOf]
    · rw [lookupF_cons, if_neg hk]
      unfold keysOf
      simp only [List.map_cons, List.mem_cons]
      rw [ih]
      constructor
      · intro hm; exact Or.inr hm
      · rintro (hm | hm)
        · exact absurd hm.symm hk
        · exact hm

lemma lookupF_eq_none_iff (r : List (String × Value)) (f : String) :
    lookupF r f = none ↔ f ∉ keysOf r := by
  rw [← lookupF_isSome_iff]
  rcases lookupF r f with _ | v <;> simp

lemma lookupF_append (a b : List (String × Value)) (f : String) :
    lookupF (a ++ b) f =
      match lookupF a f with
      | some v => some v
      | none => lookupF b f := by
  induction a with
  | nil => rfl
  | cons p r ih =>
    obtain ⟨k, v⟩ := p
    by_cases hk : k = f
    · subst hk
      show lookupF ((k, v) :: (r ++ b)) k = _
      rw [lookupF_cons, if_pos rfl, lookupF_cons, if_pos rfl]
    · show lookupF ((k, v) :: (r ++ b)) f = _
      rw [lookupF_cons, if_neg hk, lookupF_cons, if_neg hk]
      exact ih

lemma lookupF_mapFields_notMem {raw : List (String × Value)} {g : Value → Value}
    {l : List String} {f : String} (h : f ∉ l) :
    lookupF (mapFields raw g l) f = none := by
  induction l with
  | nil => rfl
  | cons x xs ih =>
    have hx : x ≠ f := by
      rintro rfl
      exact h (by simp)
    have hxs : f ∉ xs := fun hm => h (by simp [hm])
    unfold mapFields
    rcases lookupF raw x with _ | v
    · exact ih hxs
    · rw [lookupF_cons, if_neg hx]
      exact ih hxs

lemma lookupF_mapFields_single (raw : List (String × Value)) (g : Value → Value)
    (f : String) :
    lookupF (mapFields raw g [f]) f = (lookupF raw f).map g := by
  unfold mapFields
  rcases lookupF raw f with _ | v
  · rfl
  · rw [lookupF_cons, if_pos rfl]
    rfl

lemma mem_mapFields {raw : List (String × Value)} {g : Value → Value}
    {l : List String} {p : String × Value} (h : p ∈ mapFields raw g l) :
    ∃ f v, p = (f, g v) ∧ lookupF raw f = some v ∧ f ∈ l := by
  induction l with
  | nil => cases h
  | cons x xs ih =>
    unfold mapFields at h
    rcases hx : lookupF raw x with _ | v
    · rw [hx] at h
      obtain ⟨f, v, h1, h2, h3⟩ := ih h
      exact ⟨f, v, h1, h2, by simp [h3]⟩
    · rw [hx] at h
      rcases List.mem_cons.mp h with h | h
      · exact ⟨x, v, h, hx, by simp⟩
      · obtain ⟨f, w, h1, h2, h3⟩ := ih h
        exact ⟨f, w, h1, h2, by simp [h3]⟩

/- ### Column-union lemmas -/

lemma mem_foldl_addKey (ks : List String) (acc : List String) (c : String) :
    c ∈ ks.foldl addKey acc ↔ c ∈ acc ∨ c ∈ ks := by
  induction ks generalizing acc with
  | nil => simp
  | cons k kt ih =>
    rw [List.foldl_cons, ih]
    unfold addKey
    by_cases hk : k ∈ acc
    · rw [if_pos hk]
      constructor
      · rintro (h | h)
        · exact Or.inl h
        · exact Or.inr (by simp [h])
      · rintro (h | h)
        · exact Or.inl h
        · rcases List.mem_cons.mp h with rfl | h2
          · exact Or.inl hk
          · exact Or.inr h2
    · rw [if_neg hk]
      simp only [List.mem_append, List.mem_singleton, List.mem_cons]
      tauto

lemma mem_seenCols (recs : List (List (String × Value))) (c : String) :
    c ∈ seenCols recs ↔ ∃ r ∈ recs, c ∈ keysOf r := by
  unfold seenCols
  have main : ∀ acc, c ∈ recs.foldl (fun acc r => (keysOf r).foldl addKey acc) acc ↔
      c ∈ acc ∨ ∃ r ∈ recs, c ∈ keysOf r := by
    induction recs with
    | nil => intro acc; simp
    | cons r rt ih =>
      intro acc
      rw [List.foldl_cons, ih, mem_foldl_addKey]
      constructor
      · rintro ((h | h) | ⟨r2, hm, hk⟩)
        · exact Or.inl h
        · exact Or.inr ⟨r, by simp, h⟩
        · exact Or.inr ⟨r2, by simp [hm], hk⟩
      · rintro (h | ⟨r2, hm, hk⟩)
        · exact Or.inl (Or.inl h)
        · rcases List.mem_cons.mp hm with rfl | h2
          · exact Or.inl (Or.inr hk)
          · exact Or.inr ⟨r2, h2, hk⟩
  simpa using main []

lemma nodup_foldl_addKey (ks : List String) (acc : List String)
    (h : acc.Nodup) : (ks.foldl addKey acc).Nodup := by
  induction ks generalizing acc with
  | nil => exact h
  | cons k kt ih =>
    rw [List.foldl_cons]
    apply ih
    unfold addKey
    by_cases hk : k ∈ acc
    · rwa [if_pos hk]
    · rw [if_neg hk]
      rw [List.nodup_append]
      exact ⟨h, List.nodup_singleton k, by simpa using hk⟩

lemma seenCols_nodup (recs : List (List (String × Value))) :
    (seenCols recs).Nodup := by
  unfold seenCols
  have main : ∀ acc : List String, acc.Nodup →
      (recs.foldl (fun acc r => (keysOf r).foldl addKey acc) acc).Nodup := by
    induction recs with
    | nil => intro acc h; exact h
    | cons r rt ih =>
      intro acc h
      rw [List.foldl_cons]
      exact ih _ (nodup_foldl_addKey _ _ h)
  exact main [] List.nodup_nil

/- ### Branch-unfolding helpers for string inputs -/

lemma valueEq_str {v : Value} {lit : String} (h : valueEqStr v lit = true) :
    v = Value.str lit.toList := by
  cases v <;> simp only [valueEqStr] at h
  · cases h
  · rename_i s
    rw [beq_iff_eq] at h
    rw [h]
  · cases h
  · cases h

lemma str_guard_false {s : List Char} (h1 : s ≠ []) (h2 : s ≠ "null".toList) :
    (!truthy (Value.str s) || valueEqStr (Value.str s) "null" ||
      isNA (Value.str s)) = false := by
  have ht : truthy (Value.str s) = true := by
    simp [truthy, h1]
  have hv : valueEqStr (Value.str s) "null" = false := by
    simp only [valueEqStr, beq_eq_false_iff_ne, ne_eq]
    exact h2
  have hn : isNA (Value.str s) = false := by
    simp [isNA]
  rw [ht, hv, hn]
  rfl

lemma standardize_date_str {s : List Char} (h1 : s ≠ [])
    (h2 : s ≠ "null".toList) :
    standardize_date (Value.str s) =
      (if isIsoShape (pyStrip s) then some (pyStrip s)
       else
         match tryFormats dateFormats (pyStrip s) with
         | some r => some r
         | none =>
           match monthYearResult (pyStrip s) with
           | some r => some r
           | none => yearSearchRes (pyStrip s)) := by
  unfold standardize_date
  rw [str_guard_false h1 h2]
  rfl

lemma standardize_vessel_str {s : List Char} (h1 : s ≠ [])
    (h2 : s ≠ "null".toList) :
    standardize_vessel_name (Value.str s) =
      some (pyStrip (pyCollapse (subMT (subMTdots (subMV (subMVdots
        (vesselAddPre (pyCollapse (pyUpper (pyStrip s)))))))))) := by
  unfold standardize_vessel_name
  rw [str_guard_false h1 h2]
  rfl

lemma extract_str {s : List Char} (h1 : s ≠ []) (h2 : s ≠ "null".toList) :
    extract_numeric_value (Value.str s) =
      match firstNumTok (stripSyms (pyStrip s)) with
      | some tok => some (parseDec tok)
      | none => none := by
  unfold extract_numeric_value
  rw [str_guard_false h1 h2]
  rfl

lemma firstNumTok_none {u : List Char} (h : ∀ c ∈ u, isDig c = false) :
    firstNumTok u = none := by
  induction u with
  | nil => rfl
  | cons c rest ih =>
    have hc : isDig c = false := h c (by simp)
    unfold firstNumTok
    split
    · rename_i hdig
      rw [hc] at hdig
      cases hdig
    · split
      · rename_i hcond
        exfalso
        rcases rest with _ | ⟨d, t⟩
        · simp at hcond
        · have hd : isDig d = false := h d (by simp)
          rw [Bool.and_eq_true] at hcond
          exact absurd (hcond.2 : isDig d = true) (by simp [hd])
      · exact ih (fun x hx => h x (by simp [hx]))

lemma mem_stripSyms {s : List Char} {c : Char} (h : c ∈ stripSyms s) : c ∈ s :=
  List.mem_of_mem_filter h

/- ### Canonical vessel-name form (for the idempotence property) -/

lemma pre_MV {s : List Char} (h : ("M/V ".toList).isPrefixOf s = true) :
    ∃ t, s = 'M' :: '/' :: 'V' :: ' ' :: t := by
  rcases s with _ | ⟨a, _ | ⟨b, _ | ⟨c, _ | ⟨d, t⟩⟩⟩⟩ <;>
    simp only [List.isPrefixOf, Bool.and_eq_true, beq_iff_eq] at h
  · cases h
  · cases h.2
  · cases h.2.2
  · cases h.2.2.2
  · obtain ⟨rfl, rfl, rfl, rfl, -⟩ := h
    exact ⟨t, rfl⟩

lemma pre_MT {s : List Char} (h : ("MT ".toList).isPrefixOf s = true) :
    ∃ t, s = 'M' :: 'T' :: ' ' :: t := by
  rcases s with _ | ⟨a, _ | ⟨b, _ | ⟨c, t⟩⟩⟩ <;>
    simp only [List.isPrefixOf, Bool.and_eq_true, beq_iff_eq] at h
  · cases h
  · cases h.2
  · cases h.2.2
  · obtain ⟨rfl, rfl, rfl, -⟩ := h
    exact ⟨t, rfl⟩

lemma pyCollapse_eq_self {s : List Char}
    (hsp : ∀ c ∈ s, isPySpace c = true → c = ' ')
    (hnd : noDoubleSpace s = true) : pyCollapse s = s := by
  induction s using pyCollapse.induct with
  | case1 => rfl
  | case2 c hc =>
    have : c = ' ' := hsp c (by simp) hc
    subst this
    rfl
  | case3 c hc =>
    simp only [Bool.not_eq_true] at hc
    simp [pyCollapse, hc]
  | case4 c d rest h ih =>
    exfalso
    unfold noDoubleSpace at hnd
    rw [Bool.and_eq_true] at hnd
    rw [h] at hnd
    exact absurd hnd.1 (by simp)
  | case5 c d rest h ih =>
    rw [pyCollapse_cons_cons, if_neg h]
    have htail : noDoubleSpace (d :: rest) = true := by
      unfold noDoubleSpace at hnd
      rw [Bool.and_eq_true] at hnd
      exact hnd.2
    rw [ih (fun x hx hsx => hsp x (by simp [hx]) hsx) htail]
    congr 1
    by_cases hc : isPySpace c = true
    · rw [if_pos hc]
      exact (hsp c (by simp) hc).symm
    · rw [if_neg hc]

lemma keysOf_append (a b : List (String × Value)) :
    keysOf (a ++ b) = keysOf a ++ keysOf b := by
  unfold keysOf
  exact List.map_append _ a b

lemma lookupF_append_none {a b : List (String × Value)} {f : String}
    (h : lookupF a f = none) : lookupF (a ++ b) f = lookupF b f := by
  rw [lookupF_append, h]

lemma column_order_nodup : column_order.Nodup := by decide

/-- The rate field's value in the canonical record is the raw value pushed
through `gRate`, and nothing else touches that field. -/
lemma lookupRate_eq (raw : List (String × Value)) :
    lookupF (standardize_contract_data raw) rateField =
      (lookupF raw rateField).map gRate := by
  unfold standardize_contract_data
  simp only [List.append_assoc]
  rw [lookupF_append_none (lookupF_mapFields_notMem (by decide)),
    lookupF_append_none (lookupF_mapFields_notMem (by decide)),
    lookupF_append_none (lookupF_mapFields_notMem (by decide))]
  rcases hr : lookupF raw rateField with _ | v
  · have hG4 : lookupF (mapFields raw gRate [rateField]) rateField = none := by
      rw [lookupF_mapFields_single, hr]
      rfl
    rw [lookupF_append_none hG4,
      lookupF_append_none (lookupF_mapFields_notMem (by decide)),
      lookupF_append_none (lookupF_mapFields_notMem (by decide)),
      lookupF_mapFields_notMem (by decide)]
    rfl
  · have hG4 : lookupF (mapFields raw gRate [rateField]) rateField =
        some (gRate v) := by
      rw [lookupF_mapFields_single, hr]
      rfl
    rw [lookupF_append, hG4]
    rfl

/-- No field of the canonical record ever holds a float: the currency
normalizer (which returns floats) is applied to none of the 53 fields. -/
lemma std_no_float {raw : List (String × Value)} {p : String × Value}
    (h : p ∈ standardize_contract_data raw) : ∀ q : ℚ, p.2 ≠ Value.floatV q := by
  unfold standardize_contract_data at h
  simp only [List.append_assoc, List.mem_append] at h
  intro q
  rcases h with h | h | h | h | h | h | h
  · obtain ⟨f, v, rfl, hv, hf⟩ := mem_mapFields h
    rcases hsd : standardize_date v with _ | s <;> simp [gDate, optStrV, hsd]
  · obtain ⟨f, v, rfl, hv, hf⟩ := mem_mapFields h
    unfold gVessel
    split <;> simp
  · obtain ⟨f, v, rfl, hv, hf⟩ := mem_mapFields h
    rcases he : extract_numeric_value v with _ | x <;> simp [gInt, he]
  · obtain ⟨f, v, rfl, hv, hf⟩ := mem_mapFields h
    unfold gRate
    split <;> simp
  · obtain ⟨f, v, rfl, hv, hf⟩ := mem_mapFields h
    rcases he : standardize_email v with _ | s <;> simp [gEmail, optStrV, he]
  · obtain ⟨f, v, rfl, hv, hf⟩ := mem_mapFields h
    rcases hb : standardize_boolean v with _ | s <;> simp [gBool, optStrV, hb]
  · obtain ⟨f, v, rfl, hv, hf⟩ := mem_mapFields h
    unfold gText
    split
    · simp
    · split
      · rename_i hdash
        rw [valueEq_str hdash]
        simp
      · simp

/- ### Claim theorems -/

/-- C1: for the raw record with vessel_name "northern star",
daily_hire_rate_usd "$18,500 per day", charter_period_months "24",
year_built "2018" and contract_date "January 15, 2024", processed under the
33-field schema, `standardize` returns exactly the canonical record with
"M/V NORTHERN STAR", 18500.00, 24, 2018 and "2024-01-15". -/
theorem C1_end_to_end :
    standardizeSpec schema33
      [("vessel_name", Value.str "northern star".toList),
       ("daily_hire_rate_usd", Value.str "$18,500 per day".toList),
       ("charter_period_months", Value.str "24".toList),
       ("year_built", Value.str "2018".toList),
       ("contract_date", Value.str "January 15, 2024".toList)] =
    [("vessel_name", Value.str "M/V NORTHERN STAR".toList),
     ("daily_hire_rate_usd", Value.floatV 18500),
     ("charter_period_months", Value.intV 24),
     ("year_built", Value.intV 2018),
     ("contract_date", Value.str "2024-01-15".toList)] := by decide

/-- C4: `standardize_date` maps "January 15, 2024" to "2024-01-15",
"15/01/2024" to "2024-01-15", "January 2024" to "2024-01-01", "2026" to
"2026-01-01" and a null input to the absence marker. -/
theorem C4_date_examples :
    standardize_date (Value.str "January 15, 2024".toList) =
        some "2024-01-15".toList ∧
    standardize_date (Value.str "15/01/2024".toList) =
        some "2024-01-15".toList ∧
    standardize_date (Value.str "January 2024".toList) =
        some "2024-01-01".toList ∧
    standardize_date (Value.str "2026".toList) = some "2026-01-01".toList ∧
    standardize_date Value.null = none :=
  ⟨by decide, by decide, by decide, by decide, by decide⟩

/-- C2 counterexample: the claim says every letter casing of "null" maps to
the absence marker under the vessel normalizer, but `standardize_vessel_name`
maps "NULL" to "M/V NULL", not to the absence marker (only the exact
lowercase "null" is caught). -/
theorem C2_counterexample :
    standardize_vessel_name (Value.str "NULL".toList) =
        some "M/V NULL".toList ∧
    standardize_vessel_name (Value.str "NULL".toList) ≠ none :=
  ⟨by decide, by decide⟩

/-- C2 as amended: for null, empty or whitespace-only strings, and "null" in
any letter casing, `standardize_date` and `standardize_text` return the
absence marker; `standardize_vessel_name` returns the absence marker for
null, the empty string and the exact lowercase "null", but maps a
whitespace-only string to "M/V" and other casings such as "NULL" to
"M/V NULL". -/
theorem C2_absence_amended :
    (standardize_date Value.null = none ∧
     standardize_vessel_name Value.null = none ∧
     standardize_text Value.null = none) ∧
    (∀ s : List Char, s.all isPySpace = true →
      standardize_date (Value.str s) = none ∧
      standardize_text (Value.str s) = none) ∧
    (∀ c1 c2 c3 c4 : Char,
      (c1 = 'n' ∨ c1 = 'N') → (c2 = 'u' ∨ c2 = 'U') →
      (c3 = 'l' ∨ c3 = 'L') → (c4 = 'l' ∨ c4 = 'L') →
      standardize_date (Value.str [c1, c2, c3, c4]) = none ∧
      standardize_text (Value.str [c1, c2, c3, c4]) = none) ∧
    (standardize_vessel_name (Value.str []) = none ∧
     standardize_vessel_name (Value.str "null".toList) = none) ∧
    (standardize_vessel_name (Value.str "NULL".toList) =
      some "M/V NULL".toList) ∧
    (∀ s : List Char, s ≠ [] → s.all isPySpace = true →
      standardize_vessel_name (Value.str s) = some "M/V".toList) := by
  refine ⟨⟨by decide, by decide, by decide⟩, ?_, ?_, ⟨by decide, by decide⟩,
    by decide, ?_⟩
  · intro s hs
    by_cases hnil : s = []
    · subst hnil
      exact ⟨by decide, by decide⟩
    · have h2 : s ≠ "null".toList := by
        intro heq
        have := List.all_eq_true.mp hs 'n' (by rw [heq]; decide)
        exact absurd this (by decide)
      constructor
      · rw [standardize_date_str hnil h2, pyStrip_all_space hs]
        decide
      · unfold standardize_text
        rw [str_guard_false hnil h2]
        simp only [Bool.false_eq_true, if_false]
        rw [show pyStr (Value.str s) = s from rfl, pyStrip_all_space hs]
        decide
  · intro c1 c2 c3 c4 h1 h2 h3 h4
    rcases h1 with rfl | rfl <;> rcases h2 with rfl | rfl <;>
      rcases h3 with rfl | rfl <;> rcases h4 with rfl | rfl <;>
      exact ⟨by decide, by decide⟩
  · intro s hne hs
    have h2 : s ≠ "null".toList := by
      intro heq
      have := List.all_eq_true.mp hs 'n' (by rw [heq]; decide)
      exact absurd this (by decide)
    rw [standardize_vessel_str hne h2, pyStrip_all_space hs]
    decide

/-- C2 witness: the amended absence rules evaluated at "  " (whitespace-only)
and at the casing "NULL". -/
theorem C2_witness :
    standardize_date (Value.str "  ".toList) = none ∧
    standardize_vessel_name (Value.str "  ".toList) = some "M/V".toList ∧
    standardize_date (Value.str "NULL".toList) = none :=
  ⟨(C2_absence_amended.2.1 "  ".toList (by decide)).1,
   C2_absence_amended.2.2.2.2.2 "  ".toList (by decide) (by decide),
   (C2_absence_amended.2.2.1 'N' 'U' 'L' 'L' (Or.inr rfl) (Or.inr rfl)
     (Or.inr rfl) (Or.inr rfl)).1⟩

/-- C3 counterexample: the claim says a native number passes through
unchanged as a float, but `extract_numeric_value` on the native number 0
returns the absence marker (Python falsiness), not 0.0. -/
theorem C3_counterexample :
    extract_numeric_value (Value.intV 0) = none ∧
    extract_numeric_value (Value.intV 0) ≠ some 0 :=
  ⟨by decide, by decide⟩

/-- C3 as amended: `extract_numeric_value` strips separators, currency
symbols and whitespace and parses the first number found —
`extract_numeric_value "82,500 metric tons" = 82500.0` and
`standardize_currency "$11,850.50" = 11850.50` — it returns the absence
marker when the input contains no digit, and a native number passes through
unchanged as a float only when it is nonzero (zero maps to absence). -/
theorem C3_numeric_amended :
    extract_numeric_value (Value.str "82,500 metric tons".toList) =
        some 82500 ∧
    standardize_currency (Value.str "$11,850.50".toList) 2 =
        some (mkRat 23701 2) ∧
    (∀ n : Int, n ≠ 0 → extract_numeric_value (Value.intV n) = some (n : ℚ)) ∧
    (∀ q : ℚ, q ≠ 0 → extract_numeric_value (Value.floatV q) = some q) ∧
    (∀ s : List Char, (∀ c ∈ s, isDig c = false) →
      extract_numeric_value (Value.str s) = none) := by
  refine ⟨by decide, by decide, ?_, ?_, ?_⟩
  · intro n hn
    unfold extract_numeric_value
    have : (!truthy (Value.intV n) || valueEqStr (Value.intV n) "null" ||
        isNA (Value.intV n)) = false := by
      simp [truthy, valueEqStr, isNA, hn]
    rw [this]
    rfl
  · intro q hq
    unfold extract_numeric_value
    have : (!truthy (Value.floatV q) || valueEqStr (Value.floatV q) "null" ||
        isNA (Value.floatV q)) = false := by
      simp [truthy, valueEqStr, isNA, hq]
    rw [this]
    rfl
  · intro s hs
    by_cases hnil : s = []
    · subst hnil; decide
    · by_cases hnull : s = "null".toList
      · subst hnull; decide
      · rw [extract_str hnil hnull]
        have : firstNumTok (stripSyms (pyStrip s)) = none :=
          firstNumTok_none
            (fun c hc => hs c (mem_of_mem_pyStrip (mem_stripSyms hc)))
        rw [this]

/-- C3 witness: the amended numeric rules evaluated at the native number 5,
the float one half, and the digit-free string "abc". -/
theorem C3_witness :
    extract_numeric_value (Value.intV 5) = some ((5 : Int) : ℚ) ∧
    extract_numeric_value (Value.floatV (mkRat 1 2)) = some (mkRat 1 2) ∧
    extract_numeric_value (Value.str "abc".toList) = none :=
  ⟨C3_numeric_amended.2.2.1 5 (by decide),
   C3_numeric_amended.2.2.2.1 (mkRat 1 2) (by decide),
   C3_numeric_amended.2.2.2.2 "abc".toList (by decide)⟩

/-- C5: `standardize_vessel_name` uppercases and collapses whitespace,
prepends "M/V " when the cleaned name has no recognized vessel prefix and
contains no company-entity keyword, and rewrites recognized prefix spellings
to the canonical "M/V " or "MT " forms; in particular "northern star" maps to
"M/V NORTHERN STAR", "MV NORTHERN STAR" to "M/V NORTHERN STAR" and
"M.V. PACIFIC DAWN" to "M/V PACIFIC DAWN". -/
theorem C5_vessel :
    standardize_vessel_name (Value.str "northern star".toList) =
        some "M/V NORTHERN STAR".toList ∧
    standardize_vessel_name (Value.str "MV NORTHERN STAR".toList) =
        some "M/V NORTHERN STAR".toList ∧
    standardize_vessel_name (Value.str "M.V. PACIFIC DAWN".toList) =
        some "M/V PACIFIC DAWN".toList ∧
    standardize_vessel_name (Value.str "MT PACIFIC DAWN".toList) =
        some "MT PACIFIC DAWN".toList ∧
    (∀ s : List Char, s ≠ [] → s ≠ "null".toList →
      vesselPre (pyCollapse (pyUpper (pyStrip s))) = false →
      companyKw (pyCollapse (pyUpper (pyStrip s))) = false →
      standardize_vessel_name (Value.str s) =
        some (pyStrip ("M/V ".toList ++ pyCollapse (pyUpper (pyStrip s))))) := by
  refine ⟨by decide, by decide, by decide, by decide, ?_⟩
  intro s h1 h2 hpre hkw
  rw [standardize_vessel_str h1 h2]
  unfold vesselAddPre
  rw [hpre, hkw]
  simp only [Bool.false_eq_true, if_false]
  have hsubs : subMT (subMTdots (subMV (subMVdots
      ("M/V ".toList ++ pyCollapse (pyUpper (pyStrip s)))))) =
      "M/V ".toList ++ pyCollapse (pyUpper (pyStrip s)) := rfl
  rw [hsubs, pyCollapse_prepend_MV (pyCollapse_idem _) (vesselCore_head s)]

/-- C5 witness: the prepend rule evaluated at "AEGEAN EXPRESS". -/
theorem C5_witness :
    standardize_vessel_name (Value.str "AEGEAN EXPRESS".toList) =
      some "M/V AEGEAN EXPRESS".toList := by
  rw [C5_vessel.2.2.2.2 "AEGEAN EXPRESS".toList (by decide) (by decide)
    (by decide) (by decide)]
  decide

lemma noDouble_step {a b : Char} {t : List Char}
    (h : noDoubleSpace (a :: b :: t) = true) :
    (isPySpace a && isPySpace b) = false ∧ noDoubleSpace (b :: t) = true := by
  unfold noDoubleSpace at h
  rw [Bool.and_eq_true] at h
  refine ⟨?_, h.2⟩
  have h1 := h.1
  cases hX : (isPySpace a && isPySpace b)
  · rfl
  · rw [hX] at h1
    exact absurd h1 (by decide)

/-- C6: normalization is the identity on already-canonical values — a string
in ISO `YYYY-MM-DD` shape is returned unchanged by `standardize_date`, and a
vessel name that is already uppercased, whitespace-collapsed and carries a
canonical `M/V ` or `MT ` prefix is returned unchanged by
`standardize_vessel_name`. -/
theorem C6_idempotent :
    (∀ s : List Char, isIsoShape s = true →
      standardize_date (Value.str s) = some s) ∧
    (∀ s : List Char, canonVesselB s = true →
      standardize_vessel_name (Value.str s) = some s) := by
  constructor
  · intro s h
    obtain ⟨a, b, c, d, e, f, g, k, rfl, ha, hb, hc, hd, he, hf, hg, hk⟩ :=
      isoShape_parts h
    have h1 : ([a, b, c, d, '-', e, f, '-', g, k] : List Char) ≠ [] := by simp
    have h2 : ([a, b, c, d, '-', e, f, '-', g, k] : List Char) ≠
        "null".toList := by
      intro heq
      exact absurd (congrArg List.length heq) (by simp)
    rw [standardize_date_str h1 h2]
    have hstrip : pyStrip [a, b, c, d, '-', e, f, '-', g, k] =
        [a, b, c, d, '-', e, f, '-', g, k] := by
      apply pyStrip_eq_self
      · intro x hx
        simp only [List.head?_cons, Option.some.injEq] at hx
        subst hx
        exact isDig_not_space ha
      · intro x hx
        have hlk : ([a, b, c, d, '-', e, f, '-', g, k] :
            List Char).getLast? = some k := rfl
        rw [hlk] at hx
        injection hx with hx
        subst hx
        exact isDig_not_space hk
    rw [hstrip, if_pos h]
  · intro s h
    unfold canonVesselB at h
    simp only [Bool.and_eq_true, Bool.or_eq_true] at h
    obtain ⟨⟨⟨⟨hpre, hup⟩, hsp⟩, hnd⟩, hlast⟩ := h
    have hupid : pyUpper s = s := by
      apply pyUpper_eq_self
      intro c hcmem
      have hh := List.all_eq_true.mp hup c hcmem
      simpa [beq_iff_eq] using hh
    have hspc : ∀ c ∈ s, isPySpace c = true → c = ' ' := by
      intro c hcmem hcs
      have hh := List.all_eq_true.mp hsp c hcmem
      rw [Bool.or_eq_true] at hh
      rcases hh with hh | hh
      · rw [hcs] at hh
        cases hh
      · rwa [beq_iff_eq] at hh
    have hcol : pyCollapse s = s := pyCollapse_eq_self hspc hnd
    have hlast2 : ∀ x, s.getLast? = some x → isPySpace x = false := by
      intro x hx
      rw [hx] at hlast
      simpa using hlast
    rcases hpre with hp | hp
    · obtain ⟨t, rfl⟩ := pre_MV hp
      have h1 : ('M' :: '/' :: 'V' :: ' ' :: t : List Char) ≠ [] := by simp
      have h2 : ('M' :: '/' :: 'V' :: ' ' :: t : List Char) ≠
          "null".toList := by
        intro heq
        injection heq with hM _
        exact absurd hM (by decide)
      rw [standardize_vessel_str h1 h2]
      have hstrip : pyStrip ('M' :: '/' :: 'V' :: ' ' :: t) =
          'M' :: '/' :: 'V' :: ' ' :: t := by
        apply pyStrip_eq_self
        · intro x hx
          simp only [List.head?_cons, Option.some.injEq] at hx
          subst hx
          decide
        · exact hlast2
      rw [hstrip, hupid, hcol]
      unfold vesselAddPre
      have hvp : vesselPre ('M' :: '/' :: 'V' :: ' ' :: t) = true := by rfl
      rw [if_pos hvp]
      have hsubs : subMT (subMTdots (subMV (subMVdots
          ('M' :: '/' :: 'V' :: ' ' :: t)))) =
          'M' :: '/' :: 'V' :: ' ' :: t := rfl
      rw [hsubs, hcol, hstrip]
    · obtain ⟨t, rfl⟩ := pre_MT hp
      have h1 : ('M' :: 'T' :: ' ' :: t : List Char) ≠ [] := by simp
      have h2 : ('M' :: 'T' :: ' ' :: t : List Char) ≠ "null".toList := by
        intro heq
        injection heq with hM _
        exact absurd hM (by decide)
      rw [standardize_vessel_str h1 h2]
      have hstrip : pyStrip ('M' :: 'T' :: ' ' :: t) =
          'M' :: 'T' :: ' ' :: t := by
        apply pyStrip_eq_self
        · intro x hx
          simp only [List.head?_cons, Option.some.injEq] at hx
          subst hx
          decide
        · exact hlast2
      rw [hstrip, hupid, hcol]
      unfold vesselAddPre
      have hvp : vesselPre ('M' :: 'T' :: ' ' :: t) = true := by rfl
      rw [if_pos hvp]
      have hdt : t.dropWhile isPySpace = t := by
        rcases t with _ | ⟨x, t2⟩
        · rfl
        · have hs1 := (noDouble_step hnd).2
          have hs2 := (noDouble_step hs1).2
          have hs3 := (noDouble_step hs2).1
          have hx : isPySpace x = false := by
            have hsp2 : isPySpace ' ' = true := by decide
            rw [hsp2] at hs3
            simpa using hs3
          exact dropWhile_cons_false t2 hx
      have hsubs : subMT (subMTdots (subMV (subMVdots
          ('M' :: 'T' :: ' ' :: t)))) = 'M' :: 'T' :: ' ' :: t := by
        show (if isPySpace ' ' = true then
          "MT ".toList ++ t.dropWhile isPySpace
          else 'M' :: 'T' :: ' ' :: t) = 'M' :: 'T' :: ' ' :: t
        rw [if_pos (by decide : isPySpace ' ' = true), hdt]
        rfl
      rw [hsubs, hcol, hstrip]

/-- C6 witness: identity on the ISO date "2024-01-15" and the canonical
vessel names "M/V NORTHERN STAR" and "MT PACIFIC DAWN". -/
theorem C6_witness :
    standardize_date (Value.str "2024-01-15".toList) =
        some "2024-01-15".toList ∧
    standardize_vessel_name (Value.str "M/V NORTHERN STAR".toList) =
        some "M/V NORTHERN STAR".toList ∧
    standardize_vessel_name (Value.str "MT PACIFIC DAWN".toList) =
        some "MT PACIFIC DAWN".toList :=
  ⟨C6_idempotent.1 "2024-01-15".toList (by decide),
   C6_idempotent.2 "M/V NORTHERN STAR".toList (by decide),
   C6_idempotent.2 "MT PACIFIC DAWN".toList (by decide)⟩

/-- C7: the canonical record's field set is exactly the intersection of the
53-field schema with the raw record's field set — schema fields absent from
the input are never inserted, and raw fields outside the schema never appear
in the output. -/
theorem C7_field_set (raw : List (String × Value)) (f : String) :
    f ∈ keysOf (standardize_contract_data raw) ↔
      f ∈ schema53 ∧ f ∈ keysOf raw := by
  have hk : keysOf (standardize_contract_data raw) =
      schema53.filter (fun x => (lookupF raw x).isSome) := by
    unfold standardize_contract_data schema53
    rw [keysOf_append, keysOf_append, keysOf_append, keysOf_append,
      keysOf_append, keysOf_append]
    rw [keysOf_mapFields, keysOf_mapFields, keysOf_mapFields, keysOf_mapFields,
      keysOf_mapFields, keysOf_mapFields, keysOf_mapFields]
    rw [← List.filter_append, ← List.filter_append, ← List.filter_append,
      ← List.filter_append, ← List.filter_append, ← List.filter_append]
  rw [hk, List.mem_filter, lookupF_isSome_iff]

/-- C8: on every modelled input (string, number or null) each normalizer is a
total function returning a canonical value or the absence marker: dates come
back in digits-dash-digits shape, booleans as "Yes"/"No", text nonempty,
vessel names fully stripped, emails matching the validation pattern, and
currency as rounded numeric extraction. -/
theorem C8_total_canonical (v : Value) :
    (∀ s, standardize_date v = some s → dateShape s = true) ∧
    (standardize_boolean v = none ∨
     standardize_boolean v = some "Yes".toList ∨
     standardize_boolean v = some "No".toList) ∧
    (∀ s, standardize_text v = some s → s ≠ []) ∧
    (∀ s, standardize_vessel_name v = some s → pyStrip s = s) ∧
    (∀ s, standardize_email v = some s → emailOk s = true) ∧
    standardize_currency v 2 =
      (extract_numeric_value v).map (fun q => pyRound q 2) := by
  refine ⟨standardize_date_shape v, ?_, ?_, ?_, ?_, rfl⟩
  · unfold standardize_boolean
    split
    · exact Or.inl rfl
    · split
      · exact Or.inr (Or.inl rfl)
      · split
        · exact Or.inr (Or.inr rfl)
        · exact Or.inl rfl
  · intro s h
    unfold standardize_text at h
    split at h
    · cases h
    · split at h
      · cases h
      · split at h
        · cases h
        · rename_i hne
          injection h with h
          subst h
          simpa using hne
  · intro s h
    unfold standardize_vessel_name at h
    split at h
    · cases h
    · injection h with h
      subst h
      exact pyStrip_idem _
  · intro s h
    unfold standardize_email at h
    split at h
    · cases h
    · split at h
      · rename_i hok
        injection h with h
        subst h
        exact hok
      · cases h

/-- C8 witness: the canonical-shape guarantees evaluated at "2026", "x" and
"a@b.co". -/
theorem C8_witness :
    dateShape "2026-01-01".toList = true ∧
    "x".toList ≠ ([] : List Char) ∧
    pyStrip "M/V X".toList = "M/V X".toList ∧
    emailOk "a@b.co".toList = true :=
  ⟨(C8_total_canonical (Value.str "2026".toList)).1 "2026-01-01".toList
      (by decide),
   (C8_total_canonical (Value.str "x".toList)).2.2.1 "x".toList (by decide),
   (C8_total_canonical (Value.str "x".toList)).2.2.2.1 "M/V X".toList
      (by decide),
   (C8_total_canonical (Value.str "a@b.co".toList)).2.2.2.2.1 "a@b.co".toList
      (by decide)⟩

/-- C9: the columnar table's column set is exactly the union of field names
across the records, ordered with schema-declared columns that occur first (in
template order, as a sublist of the template), then the remaining columns in
first-seen order; a record lacking a column renders as absence, not an
error. -/
theorem C9_to_table (recs : List (List (String × Value))) :
    (∀ c, c ∈ create_columnar_cols recs ↔ ∃ r ∈ recs, c ∈ keysOf r) ∧
    (create_columnar_cols recs).Nodup ∧
    (∃ A B, create_columnar_cols recs = A ++ B ∧
      List.Sublist A column_order ∧ List.Sublist B (seenCols recs) ∧
      (∀ c ∈ A, c ∈ column_order) ∧ (∀ c ∈ B, c ∉ column_order)) ∧
    (∀ r ∈ recs, ∀ c, c ∉ keysOf r → tableCell r c = none) := by
  by_cases hrec : recs = []
  · subst hrec
    refine ⟨?_, ?_, ⟨[], [], rfl, List.nil_sublist _, List.nil_sublist _,
      by simp, by simp⟩, by simp⟩
    · intro c
      simp [create_columnar_cols]
    · simp [create_columnar_cols]
  · have hcc : create_columnar_cols recs =
        column_order.filter (fun c => c ∈ seenCols recs) ++
        (seenCols recs).filter (fun c => c ∉ column_order) := by
      unfold create_columnar_cols
      rw [if_neg hrec]
    refine ⟨?_, ?_, ?_, ?_⟩
    · intro c
      rw [hcc]
      simp only [List.mem_append, List.mem_filter, decide_eq_true_eq]
      constructor
      · rintro (⟨_, h2⟩ | ⟨h2, _⟩) <;> exact (mem_seenCols recs c).mp h2
      · intro h2
        have hm := (mem_seenCols recs c).mpr h2
        by_cases hco : c ∈ column_order
        · exact Or.inl ⟨hco, hm⟩
        · exact Or.inr ⟨hm, hco⟩
    · rw [hcc, List.nodup_append]
      refine ⟨List.Nodup.filter _ column_order_nodup,
        List.Nodup.filter _ (seenCols_nodup recs), ?_⟩
      intro a ha hb
      rw [List.mem_filter] at ha hb
      simp only [decide_eq_true_eq] at hb
      exact hb.2 ha.1
    · refine ⟨_, _, hcc, List.filter_sublist _, List.filter_sublist _, ?_, ?_⟩
      · intro c hcm
        exact (List.mem_filter.mp hcm).1
      · intro c hcm
        have h2 := (List.mem_filter.mp hcm).2
        simpa using h2
    · intro r hr c hcn
      unfold tableCell
      exact (lookupF_eq_none_iff r c).mpr hcn

/-- C9 witness: a record lacking a column present in another record renders
that cell as absence. -/
theorem C9_witness : tableCell [("A", Value.intV 1)] "B" = none :=
  (C9_to_table [[("A", Value.intV 1)]]).2.2.2 [("A", Value.intV 1)]
    (by decide) "B" (by decide)

/-- C10 counterexample: the claim says the rate field stores the trimmed
original string unless the value is null, "null" or "-", but for the empty
string (not one of those three) `standardize_contract_data` stores the
absence marker, not the trimmed original string. -/
theorem C10_counterexample :
    lookupF (standardize_contract_data [(rateField, Value.str [])])
        rateField = some Value.null ∧
    (Value.null : Value) ≠ Value.str [] :=
  ⟨by decide, by decide⟩

/-- C10 as amended: for every raw record containing 'CURRENT TC RATE(CL 8)',
the canonical record stores that field's raw value pushed through the rate
rule — the trimmed original string, or the absence marker when the value is
falsy (null, empty, zero), the string "null", or "-" — "35,000" stays the
string "35,000"; no numeric extraction or rounding is applied, and no field
of the 53-field canonical record ever holds a float (the currency normalizer
is applied to none of them). -/
theorem C10_rate_amended :
    (∀ raw : List (String × Value),
      lookupF (standardize_contract_data raw) rateField =
        (lookupF raw rateField).map gRate) ∧
    (∀ s : List Char,
      gRate (Value.str s) =
        if s ≠ [] ∧ s ≠ "null".toList ∧ s ≠ "-".toList
        then Value.str (pyStrip s) else Value.null) ∧
    (∀ (raw : List (String × Value)) (w : Value),
      lookupF (standardize_contract_data raw) rateField = some w →
      w = Value.null ∨ ∃ s, w = Value.str s) ∧
    lookupF (standardize_contract_data
      [(rateField, Value.str "35,000".toList)]) rateField =
      some (Value.str "35,000".toList) ∧
    (∀ (raw : List (String × Value)) (p : String × Value),
      p ∈ standardize_contract_data raw → ∀ q : ℚ, p.2 ≠ Value.floatV q) := by
  refine ⟨lookupRate_eq, ?_, ?_, by decide, fun raw p h => std_no_float h⟩
  · intro s
    by_cases h1 : s = [] <;> by_cases h2 : s = "null".toList <;>
      by_cases h3 : s = "-".toList <;>
      simp [gRate, truthy, valueEqStr, h1, h2, h3]
    all_goals rfl
  · intro raw w h
    rw [lookupRate_eq] at h
    rcases hr : lookupF raw rateField with _ | v
    · rw [hr] at h
      cases h
    · rw [hr] at h
      injection h with h
      subst h
      unfold gRate
      split
      · exact Or.inr ⟨_, rfl⟩
      · exact Or.inl rfl

/-- C10 witness: the rate rules evaluated on records carrying "35,000" and a
standardized date. -/
theorem C10_witness :
    (Value.str "35,000".toList = Value.null ∨
      ∃ s, Value.str "35,000".toList = Value.str s) ∧
    Value.str "2024-01-15".toList ≠ Value.floatV 5 :=
  ⟨C10_rate_amended.2.2.1 [(rateField, Value.str "35,000".toList)]
      (Value.str "35,000".toList) (by decide),
   C10_rate_amended.2.2.2.2
      [("TCP DATE", Value.str "January 15, 2024".toList)]
      ("TCP DATE", Value.str "2024-01-15".toList) (by decide) 5⟩
